import Mathlib

/-!
Verification of the dump-cat message-tree decoder.

This file gives a shallow embedding, in Lean, of the decoding core of the
dump-cat repository (src/message_tree.rs and src/message_tree_dumper.rs) and
proves the behavioural claims made about it.

Modelling conventions:
* Byte streams are `List Nat` (each element a byte value 0..255); reading from
  a `Read` impl backed by in-memory bytes (slices, `Cursor<Vec<u8>>`) is
  modelled by explicit stream passing, each reader returning the value read
  together with the remaining stream.
* Machine integers are `Nat` with explicit `% 2 ^ 64` where u64 overflow
  matters (`read_varint`), and `Int` where the i32 → usize sign extension of
  `try_read_data` matters.
* Fallible code returns `Except DecodeError`.  Each distinct failure site of
  the Rust source gets its own constructor: Rust panics
  (`unimplemented!`, `unreachable!`, `panic!`, and the "capacity overflow"
  abort of `vec![0; n]` when n exceeds isize::MAX = 2 ^ 63 - 1) are modelled
  as error values tagged by their site, and `io::ErrorKind::UnexpectedEof`
  from `read_exact`/`read_u8` is `DecodeError.eof`.
* `Rc` sharing cannot be observed in pure Lean values; "the same shared
  value" is rendered as equality of the stored values.
* The mutually recursive loop `decode_message` ⇄ `decode_transaction` is
  embedded with an explicit fuel parameter (`decode_message_fuel`); the
  wrapper `decode_message` supplies `stream length + 1` fuel, which always
  suffices because every loop iteration and every recursion step consumes at
  least the one tag byte.  `DecodeError.fuelExhausted` is a modelling artifact
  that the wrapper can never produce.
-/

/-- Error outcomes of the decoding core.  Each constructor corresponds to one
failure site of the Rust source (see the comments). -/
inductive DecodeError where
  /-- io::ErrorKind::UnexpectedEof surfaced by read_exact / read_u8. -/
  | eof : DecodeError
  /-- The unimplemented! panic for a version header other than NT1. -/
  | unknownVersion : DecodeError
  /-- The unimplemented! panic for an unsupported tag byte in decode_message. -/
  | unknownMessageKind : DecodeError
  /-- The unreachable! panic in MessageTree::decode when every catalogue is empty. -/
  | emptyTree : DecodeError
  /-- String::from_utf8 failure propagated by read_version / read_string. -/
  | invalidUtf8 : DecodeError
  /-- The unreachable! panic in decode_transaction when the option is None. -/
  | noActiveTransaction : DecodeError
  /-- The panic "read length error" in try_read_data when 0 < size < 4. -/
  | lengthPanic : DecodeError
  /-- The "capacity overflow" panic of `vec![0; length as usize]` in
  try_read_data when the requested size exceeds isize::MAX = 2 ^ 63 - 1
  (every sign-extended negative i32 prefix lands here). -/
  | capacityOverflow : DecodeError
  /-- Snappy decompression failure (snap::Decoder::decompress_vec). -/
  | snappy : DecodeError
  /-- Modelling artifact: fuel ran out (never produced by the wrappers). -/
  | fuelExhausted : DecodeError
deriving Repr, DecidableEq

/-- Common record of the four leaf message structs InnerEvent, InnerMetric,
InnerHeartbeat and InnerTrace of message_tree.rs, whose field layouts are
identical (status, ty, name, timestamp_in_ms, data). -/
structure LeafMsg where
  status : String
  ty : String
  name : String
  timestamp_in_ms : Nat
  data : String
deriving Repr, DecidableEq

mutual
/-- InnerTransaction from message_tree.rs: status, ty, name, timestamp_in_ms,
data, duration_in_ms and the ordered children list. -/
inductive Txn : Type where
  | mk (status ty name : String) (timestamp_in_ms : Nat) (data : String)
       (duration_in_ms : Nat) (children : List Message) : Txn

/-- The Message enum of message_tree.rs (Event, Transaction, Heartbeat,
Metric, Trace).  `Rc<Inner...>` pointers become the plain values. -/
inductive Message : Type where
  | event : LeafMsg → Message
  | transaction : Txn → Message
  | heartbeat : LeafMsg → Message
  | metric : LeafMsg → Message
  | trace : LeafMsg → Message
end

def Txn.status : Txn → String
  | .mk st _ _ _ _ _ _ => st

def Txn.ty : Txn → String
  | .mk _ ty _ _ _ _ _ => ty

def Txn.name : Txn → String
  | .mk _ _ nm _ _ _ _ => nm

def Txn.timestamp_in_ms : Txn → Nat
  | .mk _ _ _ ts _ _ _ => ts

def Txn.data : Txn → String
  | .mk _ _ _ _ da _ _ => da

def Txn.duration_in_ms : Txn → Nat
  | .mk _ _ _ _ _ du _ => du

def Txn.children : Txn → List Message
  | .mk _ _ _ _ _ _ ch => ch

/-- InnerTransaction::add_child: push one message onto the children list. -/
def Txn.add_child : Txn → Message → Txn
  | .mk st ty nm ts da du ch, m => .mk st ty nm ts da du (ch ++ [m])

/-- Setting status, data and duration_in_ms after the children have been
decoded (the tail of decode_transaction). -/
def Txn.set_final : Txn → String → String → Nat → Txn
  | .mk _ ty nm ts _ _ ch, st, da, du => .mk st ty nm ts da du ch

/-- The MessageTree struct of message_tree.rs with Rust's Default values.
The `message` default is Message::Transaction(Rc::new(Default::default())). -/
structure MessageTree where
  domain : String := ""
  hostname : String := ""
  ip_address : String := ""
  message : Message := .transaction (.mk "" "" "" 0 "" 0 [])
  message_id : String := ""
  parent_message_id : String := ""
  root_message_id : String := ""
  session_token : String := ""
  thread_group_name : String := ""
  thread_id : String := ""
  thread_name : String := ""
  format_message_id : String := ""
  discard : Bool := false
  process_loss : Bool := false
  hit_sample : Bool := false
  events : List LeafMsg := []
  transactions : List Txn := []
  heartbeats : List LeafMsg := []
  metrics : List LeafMsg := []
  traces : List LeafMsg := []

/-! UTF-8.  `read_string`/`read_version` call Rust's strict
`String::from_utf8`, and the transaction `data` field falls back to
`String::from_utf8_lossy`.  Both library functions are modelled here at the
byte level, following the standard UTF-8 validation rules that the Rust
standard library implements (lead-byte ranges, continuation 0x80..0xBF,
the tightened second-byte ranges for E0/ED/F0/F4 that exclude overlongs and
surrogates, and U+FFFD substitution of maximal invalid subparts for the
lossy variant). -/

/-- Continuation byte test: 0x80 ≤ b < 0xC0. -/
def isCont (b : Nat) : Bool := 128 ≤ b && b < 192

/-- Allowed second byte after a three-byte lead (E0 requires A0..BF, ED
requires 80..9F, otherwise any continuation byte). -/
def cont3ok (b b1 : Nat) : Bool :=
  if b = 224 then 160 ≤ b1 && b1 < 192
  else if b = 237 then 128 ≤ b1 && b1 < 160
  else isCont b1

/-- Allowed second byte after a four-byte lead (F0 requires 90..BF, F4
requires 80..8F, otherwise any continuation byte). -/
def cont4ok (b b1 : Nat) : Bool :=
  if b = 240 then 144 ≤ b1 && b1 < 192
  else if b = 244 then 128 ≤ b1 && b1 < 144
  else isCont b1

/-- One step of strict UTF-8 decoding: decode the first scalar value from
lead byte `b` and remaining bytes `rest`, returning the character and the
bytes after it, or `none` if no valid sequence starts here. -/
def utf8Step (b : Nat) (rest : List Nat) : Option (Char × List Nat) :=
  if b < 128 then some (Char.ofNat b, rest)
  else if b < 194 then none
  else if b < 224 then
    match rest with
    | b1 :: r => if isCont b1 then some (Char.ofNat ((b - 192) * 64 + (b1 - 128)), r) else none
    | [] => none
  else if b < 240 then
    match rest with
    | b1 :: b2 :: r =>
      if cont3ok b b1 && isCont b2 then
        some (Char.ofNat (((b - 224) * 64 + (b1 - 128)) * 64 + (b2 - 128)), r)
      else none
    | _ => none
  else if b < 245 then
    match rest with
    | b1 :: b2 :: b3 :: r =>
      if cont4ok b b1 && isCont b2 && isCont b3 then
        some (Char.ofNat ((((b - 240) * 64 + (b1 - 128)) * 64 + (b2 - 128)) * 64 + (b3 - 128)), r)
      else none
    | _ => none
  else none

/-- Strict UTF-8 decoding with fuel (each step consumes at least one byte, so
fuel equal to the byte count always suffices; the fuel-exhausted answer is
never reached from the wrapper). -/
def utf8DecodeF : Nat → List Nat → Option (List Char)
  | _, [] => some []
  | 0, _ :: _ => none
  | fuel + 1, b :: rest =>
    match utf8Step b rest with
    | none => none
    | some (c, r) => (utf8DecodeF fuel r).map fun cs => c :: cs

/-- Strict UTF-8 decoding of a byte list, as in String::from_utf8: `none`
exactly when the bytes are not valid UTF-8. -/
def utf8Decode (l : List Nat) : Option (List Char) := utf8DecodeF l.length l

/-- The replacement character U+FFFD. -/
def replChar : Char := Char.ofNat 65533

/-- One step of lossy UTF-8 decoding, as in String::from_utf8_lossy: a valid
sequence yields its character; an invalid sequence yields U+FFFD after
consuming one maximal invalid subpart (the error_len convention of
str::Utf8Error: only bytes that cannot begin a new sequence are consumed,
and a truncated sequence at end of input consumes everything left). -/
def utf8LossyStep (b : Nat) (rest : List Nat) : Char × List Nat :=
  if b < 128 then (Char.ofNat b, rest)
  else if b < 194 then (replChar, rest)
  else if b < 224 then
    match rest with
    | [] => (replChar, [])
    | b1 :: r =>
      if isCont b1 then (Char.ofNat ((b - 192) * 64 + (b1 - 128)), r)
      else (replChar, b1 :: r)
  else if b < 240 then
    match rest with
    | [] => (replChar, [])
    | b1 :: r =>
      if cont3ok b b1 then
        match r with
        | [] => (replChar, [])
        | b2 :: r2 =>
          if isCont b2 then (Char.ofNat (((b - 224) * 64 + (b1 - 128)) * 64 + (b2 - 128)), r2)
          else (replChar, b2 :: r2)
      else (replChar, b1 :: r)
  else if b < 245 then
    match rest with
    | [] => (replChar, [])
    | b1 :: r =>
      if cont4ok b b1 then
        match r with
        | [] => (replChar, [])
        | b2 :: r2 =>
          if isCont b2 then
            match r2 with
            | [] => (replChar, [])
            | b3 :: r3 =>
              if isCont b3 then
                (Char.ofNat ((((b - 240) * 64 + (b1 - 128)) * 64 + (b2 - 128)) * 64 + (b3 - 128)),
                 r3)
              else (replChar, b3 :: r3)
          else (replChar, b2 :: r2)
      else (replChar, b1 :: r)
  else (replChar, rest)

/-- Lossy UTF-8 decoding with fuel (fuel equal to the byte count always
suffices). -/
def utf8LossyF : Nat → List Nat → List Char
  | _, [] => []
  | 0, _ :: _ => []
  | fuel + 1, b :: rest =>
    let p := utf8LossyStep b rest
    p.1 :: utf8LossyF fuel p.2

/-- Lossy UTF-8 decoding, as in String::from_utf8_lossy. -/
def utf8Lossy (l : List Nat) : List Char := utf8LossyF l.length l

/-- str::starts_with for string arguments: the pattern's characters are a
prefix of the subject's characters. -/
def strStartsWith (s pre : String) : Bool := pre.data.isPrefixOf s.data

/-- The transaction name rewrite of decode_transaction (message_tree.rs
lines 408-410): a type of "System" or a name starting with "UploadMetric"
forces the name "UploadMetric". -/
def rewrite_name (ty nm : String) : String :=
  if ty == "System" || strStartsWith nm "UploadMetric" then "UploadMetric" else nm

/-- The data-field handling of decode_transaction (lines 426-439): strict
UTF-8 if possible, otherwise the lossy replacement of the same bytes. -/
def lossy_or_strict (data : List Nat) : String :=
  match utf8Decode data with
  | some cs => String.mk cs
  | none => String.mk (utf8Lossy data)

/-! Primitive readers (message_tree.rs lines 550-610). -/

/-- The loop body of read_varint (lines 579-596).  `n` and `shift` are the
accumulators; each byte contributes its low 7 bits shifted by `shift`.
u64::checked_shl returns None exactly when the shift amount is ≥ 64, in
which case the Rust code returns Ok(0); `<<<` on u64 keeps the low 64 bits,
hence the explicit `% 2 ^ 64`. -/
def read_varint_loop : Nat → Nat → List Nat → Except DecodeError (Nat × List Nat)
  | _, _, [] => .error .eof
  | n, shift, b :: rest =>
    if b < 128 then
      if 64 ≤ shift then .ok (0, rest)
      else .ok (n ||| ((b <<< shift) % 2 ^ 64), rest)
    else
      if 64 ≤ shift then .ok (0, rest)
      else read_varint_loop (n ||| (((b &&& 127) <<< shift) % 2 ^ 64)) (shift + 7) rest

/-- read_varint (message_tree.rs lines 579-596). -/
def read_varint (s : List Nat) : Except DecodeError (Nat × List Nat) :=
  read_varint_loop 0 0 s

/-- read_string (message_tree.rs lines 556-565): varint length, empty-string
shortcut for length 0, read_exact, then strict UTF-8. -/
def read_string (s : List Nat) : Except DecodeError (String × List Nat) :=
  match read_varint s with
  | .error e => .error e
  | .ok (len, s₁) =>
    if len = 0 then .ok ("", s₁)
    else if s₁.length < len then .error .eof
    else
      match utf8Decode (s₁.take len) with
      | some cs => .ok (String.mk cs, s₁.drop len)
      | none => .error .invalidUtf8

/-- read_bytes (message_tree.rs lines 567-576): varint length then raw bytes. -/
def read_bytes (s : List Nat) : Except DecodeError (List Nat × List Nat) :=
  match read_varint s with
  | .error e => .error e
  | .ok (len, s₁) =>
    if len = 0 then .ok ([], s₁)
    else if s₁.length < len then .error .eof
    else .ok (s₁.take len, s₁.drop len)

/-- read_version (message_tree.rs lines 550-554): read_exact of 3 bytes then
strict UTF-8. -/
def read_version (s : List Nat) : Except DecodeError (String × List Nat) :=
  if s.length < 3 then .error .eof
  else
    match utf8Decode (s.take 3) with
    | some cs => .ok (String.mk cs, s.drop 3)
    | none => .error .invalidUtf8

/-- The push onto the active parent transaction performed by every decoder
when parent_transaction is Some (the `if let Some(t) = parent_transaction`
blocks). -/
def parent_add (parent : Option Txn) (m : Message) : Option Txn :=
  match parent with
  | some t => some (t.add_child m)
  | none => none

/-- decode_header (message_tree.rs lines 344-363): version check then the ten
header strings in source order. -/
def decode_header (tree : MessageTree) (s : List Nat) :
    Except DecodeError (MessageTree × List Nat) :=
  match read_version s with
  | .error e => .error e
  | .ok (version, s) =>
  if version ≠ "NT1" then .error .unknownVersion
  else
  match read_string s with
  | .error e => .error e
  | .ok (domain, s) =>
  match read_string s with
  | .error e => .error e
  | .ok (hostname, s) =>
  match read_string s with
  | .error e => .error e
  | .ok (ip_address, s) =>
  match read_string s with
  | .error e => .error e
  | .ok (thread_group_name, s) =>
  match read_string s with
  | .error e => .error e
  | .ok (thread_id, s) =>
  match read_string s with
  | .error e => .error e
  | .ok (thread_name, s) =>
  match read_string s with
  | .error e => .error e
  | .ok (message_id, s) =>
  match read_string s with
  | .error e => .error e
  | .ok (parent_message_id, s) =>
  match read_string s with
  | .error e => .error e
  | .ok (root_message_id, s) =>
  match read_string s with
  | .error e => .error e
  | .ok (session_token, s) =>
    .ok ({ tree with
      domain := domain, hostname := hostname, ip_address := ip_address,
      thread_group_name := thread_group_name, thread_id := thread_id,
      thread_name := thread_name, message_id := message_id,
      parent_message_id := parent_message_id, root_message_id := root_message_id,
      session_token := session_token }, s)

/-- The common field sequence of the four leaf decoders
(message_tree.rs lines 452-548): timestamp (varint), type, name, status and
data (strings). -/
def read_leaf_fields (s : List Nat) : Except DecodeError (LeafMsg × List Nat) :=
  match read_varint s with
  | .error e => .error e
  | .ok (ts, s) =>
  match read_string s with
  | .error e => .error e
  | .ok (ty, s) =>
  match read_string s with
  | .error e => .error e
  | .ok (nm, s) =>
  match read_string s with
  | .error e => .error e
  | .ok (st, s) =>
  match read_string s with
  | .error e => .error e
  | .ok (da, s) =>
    .ok ({ ty := ty, name := nm, timestamp_in_ms := ts, status := st, data := da }, s)

/-- decode_event (message_tree.rs lines 452-476). -/
def decode_event (tree : MessageTree) (parent : Option Txn) (s : List Nat) :
    Except DecodeError (MessageTree × Option Txn × List Nat) :=
  match read_leaf_fields s with
  | .error e => .error e
  | .ok (l, s) =>
    .ok ({ tree with events := tree.events ++ [l] }, parent_add parent (.event l), s)

/-- decode_metric (message_tree.rs lines 478-500). -/
def decode_metric (tree : MessageTree) (parent : Option Txn) (s : List Nat) :
    Except DecodeError (MessageTree × Option Txn × List Nat) :=
  match read_leaf_fields s with
  | .error e => .error e
  | .ok (l, s) =>
    .ok ({ tree with metrics := tree.metrics ++ [l] }, parent_add parent (.metric l), s)

/-- decode_heartbeat (message_tree.rs lines 502-524). -/
def decode_heartbeat (tree : MessageTree) (parent : Option Txn) (s : List Nat) :
    Except DecodeError (MessageTree × Option Txn × List Nat) :=
  match read_leaf_fields s with
  | .error e => .error e
  | .ok (l, s) =>
    .ok ({ tree with heartbeats := tree.heartbeats ++ [l] }, parent_add parent (.heartbeat l), s)

/-- decode_trace (message_tree.rs lines 526-548). -/
def decode_trace (tree : MessageTree) (parent : Option Txn) (s : List Nat) :
    Except DecodeError (MessageTree × Option Txn × List Nat) :=
  match read_leaf_fields s with
  | .error e => .error e
  | .ok (l, s) =>
    .ok ({ tree with traces := tree.traces ++ [l] }, parent_add parent (.trace l), s)

/-- decode_transaction (message_tree.rs lines 397-450), parameterized by the
recursive call into decode_message (`recur`): read timestamp, type and name;
rewrite the name; build the fresh transaction (status, data empty, duration
0, no children, as InnerTransaction::new with the wire timestamp); recurse
for the children; then read status, data bytes and duration (microseconds,
stored divided by 1000), apply the lossy UTF-8 fallback for data only, and
push the finished transaction onto the parent's children and the tree's flat
catalogue. -/
def decode_transaction
    (recur : MessageTree → Option Txn → List Nat →
      Except DecodeError (MessageTree × Option Txn × List Nat))
    (tree : MessageTree) (parent_transaction : Option Txn) (s : List Nat) :
    Except DecodeError (MessageTree × Option Txn × List Nat) :=
  match read_varint s with
  | .error e => .error e
  | .ok (ts, s) =>
  match read_string s with
  | .error e => .error e
  | .ok (ty, s) =>
  match read_string s with
  | .error e => .error e
  | .ok (name₀, s) =>
  let name := rewrite_name ty name₀
  let t₀ : Txn := .mk "" ty name ts "" 0 []
  match recur tree (some t₀) s with
  | .error e => .error e
  | .ok (tree, topt, s) =>
  match topt with
  | none => .error .noActiveTransaction
  | some t₁ =>
  match read_string s with
  | .error e => .error e
  | .ok (status, s) =>
  match read_bytes s with
  | .error e => .error e
  | .ok (data, s) =>
  match read_varint s with
  | .error e => .error e
  | .ok (dur, s) =>
    let t₂ := t₁.set_final status (lossy_or_strict data) (dur / 1000)
    .ok ({ tree with transactions := tree.transactions ++ [t₂] },
         parent_add parent_transaction (.transaction t₂), s)

/-- decode_message (message_tree.rs lines 365-395) with explicit fuel: read
one tag byte (a 1-byte `read` that returns 0 only at end of stream, breaking
the loop with success); dispatch on 't', 'T', 'E', 'M', 'H', 'L' in source
order; any other byte is the unimplemented!("unsupported type") panic. -/
def decode_message_fuel : Nat → MessageTree → Option Txn → List Nat →
    Except DecodeError (MessageTree × Option Txn × List Nat)
  | 0, _, _, _ => .error .fuelExhausted
  | fuel + 1, tree, transaction, s =>
    match s with
    | [] => .ok (tree, transaction, [])
    | ch :: s =>
      if ch = 116 then
        match decode_transaction (decode_message_fuel fuel) tree transaction s with
        | .error e => .error e
        | .ok (tree, transaction, s) => decode_message_fuel fuel tree transaction s
      else if ch = 84 then .ok (tree, transaction, s)
      else if ch = 69 then
        match decode_event tree transaction s with
        | .error e => .error e
        | .ok (tree, transaction, s) => decode_message_fuel fuel tree transaction s
      else if ch = 77 then
        match decode_metric tree transaction s with
        | .error e => .error e
        | .ok (tree, transaction, s) => decode_message_fuel fuel tree transaction s
      else if ch = 72 then
        match decode_heartbeat tree transaction s with
        | .error e => .error e
        | .ok (tree, transaction, s) => decode_message_fuel fuel tree transaction s
      else if ch = 76 then
        match decode_trace tree transaction s with
        | .error e => .error e
        | .ok (tree, transaction, s) => decode_message_fuel fuel tree transaction s
      else .error .unknownMessageKind

/-- decode_message with the always-sufficient fuel `stream length + 1`. -/
def decode_message (tree : MessageTree) (transaction : Option Txn) (s : List Nat) :
    Except DecodeError (MessageTree × Option Txn × List Nat) :=
  decode_message_fuel (s.length + 1) tree transaction s

/-- MessageTree::decode (message_tree.rs lines 319-339): default tree, header,
top-level message loop, then the representative message is the last element
of the first non-empty catalogue in the order transactions, events, metrics,
heartbeats, traces; the all-empty case is the unreachable! panic. -/
def MessageTree.decode (s : List Nat) : Except DecodeError MessageTree :=
  match decode_header {} s with
  | .error e => .error e
  | .ok (tree, s) =>
  match decode_message tree none s with
  | .error e => .error e
  | .ok (tree, _, _) =>
  match tree.transactions.getLast? with
  | some t => .ok { tree with message := .transaction t }
  | none =>
  match tree.events.getLast? with
  | some l => .ok { tree with message := .event l }
  | none =>
  match tree.metrics.getLast? with
  | some l => .ok { tree with message := .metric l }
  | none =>
  match tree.heartbeats.getLast? with
  | some l => .ok { tree with message := .heartbeat l }
  | none =>
  match tree.traces.getLast? with
  | some l => .ok { tree with message := .trace l }
  | none => .error .emptyTree

/-! The shared length-prefixed framing helper try_read_data
(message_tree.rs lines 598-610) and the Snappy stream reader
(message_tree_dumper.rs lines 116-171). -/

/-- BigEndian::read_i32 followed by `as usize` on a 64-bit target: the four
bytes make a signed 32-bit value which is sign-extended into the unsigned
64-bit machine word (i.e. taken modulo 2 ^ 64). -/
def read_i32_be_as_usize (b0 b1 b2 b3 : Nat) : Nat :=
  let v : Nat := ((b0 * 256 + b1) * 256 + b2) * 256 + b3
  let length : Int := if v < 2 ^ 31 then (v : Int) else (v : Int) - 2 ^ 32
  (length % (2 : Int) ^ 64).toNat

/-- try_read_data (message_tree.rs lines 598-610): a 4-byte read returning 0
available bytes is clean EOF (None); 1-3 available bytes is the
panic!("read length error"); otherwise the big-endian i32 length is cast to
usize and a buffer of that size is allocated by `vec![0; length as usize]` -
which panics with "capacity overflow" before any body byte is read whenever
the size exceeds isize::MAX = 2 ^ 63 - 1, as it does for every negative i32
prefix - and only then are that many body bytes read exactly (UnexpectedEof
on a short body). -/
def try_read_data : List Nat → Except DecodeError (Option (List Nat) × List Nat)
  | [] => .ok (none, [])
  | b0 :: b1 :: b2 :: b3 :: rest =>
    let size := read_i32_be_as_usize b0 b1 b2 b3
    if 2 ^ 63 ≤ size then .error .capacityOverflow
    else if rest.length < size then .error .eof
    else .ok (some (rest.take size), rest.drop size)
  | _ => .error .lengthPanic

/-- State of a SnappyReader: the remaining bytes of the Cursor over the block
(`reader`) and the decompressed staging buffer (`buf`, a BytesMut). -/
structure SnappyState where
  reader : List Nat
  buf : List Nat
deriving Repr, DecidableEq

/-- Result of one SnappyReader::read call: `ok n out st` is a successful
return of `n` with the bytes `out` written to the caller's buffer and the
new reader state `st`; `err` is an error return; `diverge` marks the input
states on which the Rust read loop never terminates (each iteration leaves
the state unchanged, so the loop runs forever). -/
inductive SnappyReadResult where
  | ok (n : Nat) (out : List Nat) (st : SnappyState) : SnappyReadResult
  | err (e : DecodeError) : SnappyReadResult
  | diverge : SnappyReadResult
deriving Repr, DecidableEq

/-- SnappyReader::read_more_chunk (message_tree_dumper.rs lines 137-148),
parameterized by the opaque Snappy decompressor `decomp`
(snap::Decoder::decompress_vec): read one length-prefixed chunk from the
cursor (clean EOF returns 0 without changes), decompress it, and append the
result to the staging buffer. -/
def read_more_chunk (decomp : List Nat → Except DecodeError (List Nat))
    (st : SnappyState) : Except DecodeError (Nat × SnappyState) :=
  match try_read_data st.reader with
  | .error e => .error e
  | .ok (none, r) => .ok (0, { st with reader := r })
  | .ok (some body, r) =>
    match decomp body with
    | .error e => .error e
    | .ok chunk => .ok (chunk.length, { reader := r, buf := st.buf ++ chunk })

/-- The loop of SnappyReader::read (message_tree_dumper.rs lines 150-171)
with explicit fuel.  Each iteration: if the staging buffer holds fewer than
`size` bytes, call read_more_chunk (a no-op when the cursor is exhausted);
then break returning `size` bytes split off the front when the buffer holds
at least `size`; return 0 when the buffer is empty; otherwise repeat.  When
the cursor is exhausted and the buffer holds a nonzero residue smaller than
`size`, every iteration repeats on an identical state, so the Rust loop
never terminates: that case is `diverge`. -/
def snappy_read_fuel (decomp : List Nat → Except DecodeError (List Nat)) :
    Nat → Nat → SnappyState → SnappyReadResult
  | 0, _, _ => .err .fuelExhausted
  | fuel + 1, size, st =>
    if st.buf.length < size then
      if st.reader.isEmpty then
        if st.buf.isEmpty then .ok 0 [] st
        else .diverge
      else
        match read_more_chunk decomp st with
        | .error e => .err e
        | .ok (_, st') =>
          if size ≤ st'.buf.length then
            .ok size (st'.buf.take size) { st' with buf := st'.buf.drop size }
          else if st'.buf.isEmpty then .ok 0 [] st'
          else snappy_read_fuel decomp fuel size st'
    else .ok size (st.buf.take size) { st with buf := st.buf.drop size }

/-- SnappyReader::read.  Fuel `reader length + 1` always suffices: every
iteration that continues the loop consumed at least 4 cursor bytes. -/
def snappy_read (decomp : List Nat → Except DecodeError (List Nat))
    (size : Nat) (st : SnappyState) : SnappyReadResult :=
  snappy_read_fuel decomp (st.reader.length + 1) size st

/-! Wire-format encoders.  The decoder claims about catalogue order,
name rewriting and sharing quantify over well-formed records; records are
represented abstractly as forests of wire messages and rendered to bytes by
the encoders below, following the grammar of the decoder (and of spec §6).
The string encoder covers ASCII strings, for which the UTF-8 rendering is
the identity on byte values. -/

/-- Canonical unsigned LEB128 encoding, 10-byte fuel (enough for any value
below 2 ^ 70, in particular for every u64). -/
def enc_varint_fuel : Nat → Nat → List Nat
  | 0, n => [n % 128]
  | fuel + 1, n => if n < 128 then [n] else (n % 128 + 128) :: enc_varint_fuel fuel (n / 128)

/-- Canonical varint encoding of a u64 value. -/
def enc_varint (n : Nat) : List Nat := enc_varint_fuel 10 n

/-- ASCII well-formedness of a string: every character below 128, and the
length representable as a u64. -/
def ascii_ok (str : String) : Bool :=
  decide (str.data.length < 2 ^ 64) && str.data.all fun c => c.toNat < 128

/-- Wire encoding of an ASCII string: varint length then one byte per
character. -/
def enc_string (str : String) : List Nat :=
  enc_varint str.data.length ++ str.data.map Char.toNat

/-- The four leaf message kinds and their wire tags. -/
inductive LeafKind where
  | event : LeafKind
  | metric : LeafKind
  | heartbeat : LeafKind
  | trace : LeafKind
deriving Repr, DecidableEq

/-- Wire tag byte of a leaf kind ('E', 'M', 'H', 'L'). -/
def LeafKind.tag : LeafKind → Nat
  | .event => 69
  | .metric => 77
  | .heartbeat => 72
  | .trace => 76

mutual
/-- Abstract wire message: a leaf with its five fields, or a transaction
with timestamp, type, name, children, status, raw data bytes and duration
in microseconds. -/
inductive WireMsg : Type where
  | leaf (k : LeafKind) (ts : Nat) (ty nm st da : String) : WireMsg
  | txn (ts : Nat) (ty nm : String) (children : WireForest) (st : String)
        (da : List Nat) (dur : Nat) : WireMsg

/-- A sequence of wire messages. -/
inductive WireForest : Type where
  | nil : WireForest
  | cons : WireMsg → WireForest → WireForest
end

mutual
/-- Byte rendering of one wire message, following the decode grammar:
leaves are tag, timestamp, type, name, status, data (strings); transactions
are 't', timestamp, type, name, the children, 'T', status, data bytes
(varint length plus raw bytes) and duration in microseconds. -/
def encode_msg : WireMsg → List Nat
  | .leaf k ts ty nm st da =>
    k.tag :: (enc_varint ts ++ enc_string ty ++ enc_string nm ++ enc_string st ++ enc_string da)
  | .txn ts ty nm ch st da dur =>
    116 :: (enc_varint ts ++ enc_string ty ++ enc_string nm ++ (encode_forest ch
      ++ 84 :: (enc_string st ++ (enc_varint da.length ++ da) ++ enc_varint dur)))

/-- Byte rendering of a forest: concatenation in order. -/
def encode_forest : WireForest → List Nat
  | .nil => []
  | .cons m f => encode_msg m ++ encode_forest f
end

mutual
/-- The Message value the decoder builds for one wire message. -/
def decoded_msg : WireMsg → Message
  | .leaf .event ts ty nm st da => .event ⟨st, ty, nm, ts, da⟩
  | .leaf .metric ts ty nm st da => .metric ⟨st, ty, nm, ts, da⟩
  | .leaf .heartbeat ts ty nm st da => .heartbeat ⟨st, ty, nm, ts, da⟩
  | .leaf .trace ts ty nm st da => .trace ⟨st, ty, nm, ts, da⟩
  | .txn ts ty nm ch st da dur =>
    .transaction (.mk st ty (rewrite_name ty nm) ts (lossy_or_strict da) (dur / 1000)
      (decoded_children ch))

/-- The children list the decoder builds for a forest. -/
def decoded_children : WireForest → List Message
  | .nil => []
  | .cons m f => decoded_msg m :: decoded_children f
end

/-- The Txn value the decoder builds for one wire transaction: rewritten
name, lossy-or-strict data string, duration divided by 1000, decoded
children. -/
def decoded_txn (ts : Nat) (ty nm : String) (ch : WireForest) (st : String)
    (da : List Nat) (dur : Nat) : Txn :=
  .mk st ty (rewrite_name ty nm) ts (lossy_or_strict da) (dur / 1000) (decoded_children ch)

mutual
/-- Transactions of one wire message in the order their closing tags are
consumed (children first, then the node itself). -/
def post_txns_msg : WireMsg → List Txn
  | .leaf _ _ _ _ _ _ => []
  | .txn ts ty nm ch st da dur => post_txns ch ++ [decoded_txn ts ty nm ch st da dur]

/-- Transactions of a forest in closing-tag order. -/
def post_txns : WireForest → List Txn
  | .nil => []
  | .cons m f => post_txns_msg m ++ post_txns f
end

mutual
/-- Leaves of kind `k` in one wire message, in emission order. -/
def emit_leaves_msg (k : LeafKind) : WireMsg → List LeafMsg
  | .leaf k' ts ty nm st da => if k' = k then [⟨st, ty, nm, ts, da⟩] else []
  | .txn _ _ _ ch _ _ _ => emit_leaves k ch

/-- Leaves of kind `k` in a forest, in emission order. -/
def emit_leaves (k : LeafKind) : WireForest → List LeafMsg
  | .nil => []
  | .cons m f => emit_leaves_msg k m ++ emit_leaves k f
end

mutual
/-- Number of wire messages (nodes) in one message. -/
def msg_count : WireMsg → Nat
  | .leaf _ _ _ _ _ _ => 1
  | .txn _ _ _ ch _ _ _ => 1 + forest_count ch

/-- Number of wire messages (nodes) in a forest. -/
def forest_count : WireForest → Nat
  | .nil => 0
  | .cons m f => msg_count m + forest_count f
end

mutual
/-- Well-formedness of one wire message: ASCII string fields and u64-sized
numbers (the data bytes of a transaction are unrestricted: the decoder
accepts arbitrary bytes there). -/
def wf_msg : WireMsg → Bool
  | .leaf _ ts ty nm st da =>
    decide (ts < 2 ^ 64) && ascii_ok ty && ascii_ok nm && ascii_ok st && ascii_ok da
  | .txn ts ty nm ch st da dur =>
    decide (ts < 2 ^ 64) && ascii_ok ty && ascii_ok nm && wf_forest ch && ascii_ok st
      && decide (da.length < 2 ^ 64) && decide (dur < 2 ^ 64)

/-- Well-formedness of a forest. -/
def wf_forest : WireForest → Bool
  | .nil => true
  | .cons m f => wf_msg m && wf_forest f
end

/-- Effect of decoding a forest on the tree state: every catalogue is
extended, transactions in closing-tag order and leaves in emission order. -/
def tree_extend (tree : MessageTree) (f : WireForest) : MessageTree :=
  { tree with
    transactions := tree.transactions ++ post_txns f
    events := tree.events ++ emit_leaves .event f
    metrics := tree.metrics ++ emit_leaves .metric f
    heartbeats := tree.heartbeats ++ emit_leaves .heartbeat f
    traces := tree.traces ++ emit_leaves .trace f }

/-- Appending several messages to a transaction's children. -/
def Txn.append_children : Txn → List Message → Txn
  | .mk st ty nm ts da du ch, ms => .mk st ty nm ts da du (ch ++ ms)

/-- Effect of decoding a forest on the active parent transaction: its
children list grows by the decoded messages in order. -/
def parent_extend (parent : Option Txn) (f : WireForest) : Option Txn :=
  match parent with
  | none => none
  | some t => some (t.append_children (decoded_children f))

/-! Helper lemmas: bit arithmetic, varint and field round-trips. -/

/-- Oring a value below 2 ^ s with a value shifted left by s is addition. -/
theorem lor_disjoint (s : Nat) : ∀ a b : Nat, a < 2 ^ s → a ||| (b <<< s) = a + b <<< s := by
  induction s with
  | zero =>
    intro a b h
    have : a = 0 := by omega
    simp [this]
  | succ s ih =>
    intro a b h
    have haeq : a = Nat.bit (a % 2 = 1) (a / 2) := by
      simp only [Nat.bit_val]
      rcases Nat.mod_two_eq_zero_or_one a with h2 | h2 <;> simp [h2] <;> omega
    have hbeq : b <<< (s + 1) = Nat.bit false (b <<< s) := by
      simp only [Nat.bit_val, Nat.shiftLeft_eq, Bool.toNat_false, Nat.add_zero, pow_succ]
      ring
    rw [haeq, hbeq, Nat.lor_bit]
    have hdiv : a / 2 < 2 ^ s := by
      rw [pow_succ] at h
      omega
    simp only [Nat.bit_val, ih (a / 2) b hdiv, Bool.or_false]
    rcases Nat.mod_two_eq_zero_or_one a with h2 | h2 <;> simp [h2] <;> omega

/-- Masking with 127 is reduction modulo 128. -/
theorem and_127_eq_mod (a : Nat) : a &&& 127 = a % 128 := by
  have := Nat.and_pow_two_sub_one_eq_mod a 7
  norm_num at this
  exact this

/-- Decoding a canonically encoded varint: with enough fuel, a small enough
accumulator and a shift budget that the value fits, the loop returns the
accumulated sum and the untouched rest of the stream. -/
theorem read_varint_loop_enc :
    ∀ (fuel n acc shift : Nat) (rest : List Nat),
      n < 128 ^ (fuel + 1) → acc < 2 ^ shift → shift ≤ 63 → n * 2 ^ shift < 2 ^ 64 →
      read_varint_loop acc shift (enc_varint_fuel fuel n ++ rest)
        = .ok (acc + n * 2 ^ shift, rest) := by
  intro fuel
  induction fuel with
  | zero =>
    intro n acc shift rest h1 h2 h3 h4
    have hn : n % 128 = n := Nat.mod_eq_of_lt (by simpa using h1)
    have hlt : n <<< shift < 2 ^ 64 := by rwa [Nat.shiftLeft_eq]
    rw [show enc_varint_fuel 0 n = [n] by simp [enc_varint_fuel, hn]]
    simp only [List.cons_append, List.nil_append, read_varint_loop]
    rw [if_pos (by simpa using h1 : n < 128), if_neg (by omega : ¬ 64 ≤ shift),
      Nat.mod_eq_of_lt hlt, lor_disjoint shift acc n h2, Nat.shiftLeft_eq]
    rfl
  | succ fuel ih =>
    intro n acc shift rest h1 h2 h3 h4
    by_cases hn : n < 128
    · have hlt : n <<< shift < 2 ^ 64 := by rwa [Nat.shiftLeft_eq]
      rw [show enc_varint_fuel (fuel + 1) n = [n] by simp [enc_varint_fuel, hn]]
      simp only [List.cons_append, List.nil_append, read_varint_loop]
      rw [if_pos hn, if_neg (by omega : ¬ 64 ≤ shift),
        Nat.mod_eq_of_lt hlt, lor_disjoint shift acc n h2, Nat.shiftLeft_eq]
      rfl
    · have h27 : (2 : Nat) ^ 7 = 128 := by norm_num
      have hpos : 0 < 2 ^ shift := Nat.pos_pow_of_pos _ (by omega)
      have hb : ¬ n % 128 + 128 < 128 := by omega
      have hshift128 : 2 ^ (shift + 7) ≤ n * 2 ^ shift := by
        calc 2 ^ (shift + 7) = 128 * 2 ^ shift := by rw [pow_add, h27]; ring
        _ ≤ n * 2 ^ shift := mul_le_mul_right' (by omega) _
      have hshift7 : shift + 7 ≤ 63 := by
        have h64 : 2 ^ (shift + 7) < 2 ^ 64 := lt_of_le_of_lt hshift128 h4
        have := (Nat.pow_lt_pow_iff_right (a := 2) (by omega)).mp h64
        omega
      have hmask : (n % 128 + 128) &&& 127 = n % 128 := by
        rw [and_127_eq_mod]
        omega
      have hmod_lt : (n % 128) <<< shift < 2 ^ 64 := by
        rw [Nat.shiftLeft_eq]
        calc (n % 128) * 2 ^ shift < 128 * 2 ^ shift :=
          mul_lt_mul_of_pos_right (Nat.mod_lt _ (by omega)) hpos
        _ = 2 ^ (shift + 7) := by rw [pow_add, h27]; ring
        _ ≤ n * 2 ^ shift := hshift128
        _ < 2 ^ 64 := h4
      have hacc' : acc + (n % 128) <<< shift < 2 ^ (shift + 7) := by
        rw [Nat.shiftLeft_eq]
        have hle : (n % 128) * 2 ^ shift ≤ 127 * 2 ^ shift :=
          mul_le_mul_right' (by omega) _
        calc acc + (n % 128) * 2 ^ shift < 2 ^ shift + 127 * 2 ^ shift := by omega
        _ = 2 ^ (shift + 7) := by rw [pow_add, h27]; ring
      have hdiv_small : n / 128 < 128 ^ (fuel + 1) := by
        have hnlt : n < 128 ^ (fuel + 1) * 128 := by
          rw [← pow_succ]
          exact h1
        exact Nat.div_lt_of_lt_mul (by omega)
      have hdiv_fit : (n / 128) * 2 ^ (shift + 7) < 2 ^ 64 := by
        calc (n / 128) * 2 ^ (shift + 7)
            = (n / 128) * 128 * 2 ^ shift := by rw [pow_add, h27]; ring
        _ ≤ n * 2 ^ shift := mul_le_mul_right' (Nat.div_mul_le_self n 128) _
        _ < 2 ^ 64 := h4
      rw [show enc_varint_fuel (fuel + 1) n
          = (n % 128 + 128) :: enc_varint_fuel fuel (n / 128) by
        simp [enc_varint_fuel, hn]]
      simp only [List.cons_append, read_varint_loop]
      rw [if_neg hb, if_neg (by omega : ¬ 64 ≤ shift), hmask, Nat.mod_eq_of_lt hmod_lt,
        lor_disjoint shift acc (n % 128) h2]
      simp only [List.append_eq]
      rw [ih (n / 128) (acc + (n % 128) <<< shift) (shift + 7) rest hdiv_small hacc' hshift7 hdiv_fit]
      have hsplit : n % 128 + 128 * (n / 128) = n := Nat.mod_add_div n 128
      rw [Nat.shiftLeft_eq]
      congr 2
      calc acc + (n % 128) * 2 ^ shift + (n / 128) * 2 ^ (shift + 7)
          = acc + (n % 128 + 128 * (n / 128)) * 2 ^ shift := by rw [pow_add, h27]; ring
      _ = acc + n * 2 ^ shift := by rw [hsplit]

/-- read_varint decodes every canonically encoded u64 value. -/
theorem read_varint_enc (n : Nat) (h : n < 2 ^ 64) (rest : List Nat) :
    read_varint (enc_varint n ++ rest) = .ok (n, rest) := by
  have h128 : n < 128 ^ 11 := lt_of_lt_of_le h (by norm_num)
  have := read_varint_loop_enc 10 n 0 0 rest h128 (by norm_num) (by norm_num)
    (by simpa using h)
  simpa [read_varint, enc_varint] using this

/-- ASCII bytes decode strictly to their characters, for any sufficient fuel. -/
theorem utf8DecodeF_ascii :
    ∀ (cs : List Char) (fuel : Nat), cs.length ≤ fuel → (∀ c ∈ cs, c.toNat < 128) →
      utf8DecodeF fuel (cs.map Char.toNat) = some cs := by
  intro cs
  induction cs with
  | nil =>
    intro fuel _ _
    cases fuel <;> rfl
  | cons c cs ih =>
    intro fuel hfuel h
    have hc : c.toNat < 128 := h c (by simp)
    cases fuel with
    | zero => simp at hfuel
    | succ f =>
      show utf8DecodeF (f + 1) (c.toNat :: cs.map Char.toNat) = some (c :: cs)
      rw [utf8DecodeF]
      have hstep : utf8Step c.toNat (cs.map Char.toNat)
          = some (Char.ofNat c.toNat, cs.map Char.toNat) := by
        simp [utf8Step, hc]
      rw [hstep]
      show (utf8DecodeF f (cs.map Char.toNat)).map (fun cs => Char.ofNat c.toNat :: cs)
        = some (c :: cs)
      rw [ih f (by simp at hfuel; omega) fun x hx => h x (List.mem_cons_of_mem _ hx)]
      show some (Char.ofNat c.toNat :: cs) = some (c :: cs)
      rw [Char.ofNat_toNat]

/-- ASCII bytes decode strictly to their characters. -/
theorem utf8Decode_ascii (cs : List Char) (h : ∀ c ∈ cs, c.toNat < 128) :
    utf8Decode (cs.map Char.toNat) = some cs :=
  utf8DecodeF_ascii cs (cs.map Char.toNat).length (by simp) h

/-- read_string decodes every encoded ASCII string. -/
theorem read_string_enc (str : String) (h : ascii_ok str = true) (rest : List Nat) :
    read_string (enc_string str ++ rest) = .ok (str, rest) := by
  have hparts := h
  simp only [ascii_ok, Bool.and_eq_true, decide_eq_true_eq, List.all_eq_true] at hparts
  obtain ⟨hlen, hascii⟩ := hparts
  have hmap : (str.data.map Char.toNat).length = str.data.length := List.length_map _ _
  simp only [enc_string, List.append_assoc]
  rw [read_string, read_varint_enc str.data.length hlen (str.data.map Char.toNat ++ rest)]
  dsimp only
  by_cases h0 : str.data.length = 0
  · have hdata : str.data = [] := List.length_eq_zero.mp h0
    obtain ⟨data⟩ := str
    simp only at hdata
    subst hdata
    simp
  · rw [if_neg h0, if_neg (by simp only [List.length_append, hmap]; omega),
      List.take_left' hmap, List.drop_left' hmap,
      utf8Decode_ascii str.data fun c hc => by simpa using hascii c hc]

/-- read_bytes decodes every encoded byte field. -/
theorem read_bytes_enc (da : List Nat) (h : da.length < 2 ^ 64) (rest : List Nat) :
    read_bytes (enc_varint da.length ++ (da ++ rest)) = .ok (da, rest) := by
  rw [read_bytes, read_varint_enc da.length h (da ++ rest)]
  dsimp only
  by_cases h0 : da.length = 0
  · have : da = [] := List.length_eq_zero.mp h0
    subst this
    simp
  · rw [if_neg h0, if_neg (by simp only [List.length_append]; omega),
      List.take_left, List.drop_left]

/-! Step lemmas for the forest decoding argument. -/

/-- Inserting one decoded leaf of kind `k` into its catalogue. -/
def leaf_insert (tree : MessageTree) (k : LeafKind) (l : LeafMsg) : MessageTree :=
  match k with
  | .event => { tree with events := tree.events ++ [l] }
  | .metric => { tree with metrics := tree.metrics ++ [l] }
  | .heartbeat => { tree with heartbeats := tree.heartbeats ++ [l] }
  | .trace => { tree with traces := tree.traces ++ [l] }

theorem tree_extend_nil (tree : MessageTree) : tree_extend tree .nil = tree := by
  simp [tree_extend, post_txns, emit_leaves]

theorem parent_extend_nil (par : Option Txn) : parent_extend par .nil = par := by
  cases par with
  | none => rfl
  | some t =>
    cases t with
    | mk st ty nm ts da du ch => simp [parent_extend, decoded_children, Txn.append_children]

theorem tree_extend_cons_leaf (tree : MessageTree) (k : LeafKind) (ts : Nat)
    (ty nm st da : String) (f : WireForest) :
    tree_extend tree (.cons (.leaf k ts ty nm st da) f)
      = tree_extend (leaf_insert tree k ⟨st, ty, nm, ts, da⟩) f := by
  cases k <;>
    simp [tree_extend, leaf_insert, post_txns, post_txns_msg, emit_leaves, emit_leaves_msg,
      List.append_assoc]

theorem tree_extend_cons_txn (tree : MessageTree) (ts : Nat) (ty nm : String)
    (ch : WireForest) (st : String) (da : List Nat) (dur : Nat) (f : WireForest) :
    tree_extend tree (.cons (.txn ts ty nm ch st da dur) f)
      = tree_extend
          { tree_extend tree ch with
            transactions := (tree_extend tree ch).transactions
              ++ [decoded_txn ts ty nm ch st da dur] } f := by
  simp [tree_extend, post_txns, post_txns_msg, emit_leaves, emit_leaves_msg, decoded_txn,
    List.append_assoc]

theorem parent_extend_cons (par : Option Txn) (m : WireMsg) (f : WireForest) :
    parent_extend par (.cons m f) = parent_extend (parent_add par (decoded_msg m)) f := by
  cases par with
  | none => rfl
  | some t =>
    cases t with
    | mk st ty nm ts da du ch =>
      simp [parent_extend, parent_add, decoded_children, Txn.add_child, Txn.append_children,
        List.append_assoc]

theorem decoded_msg_txn (ts : Nat) (ty nm : String) (ch : WireForest) (st : String)
    (da : List Nat) (dur : Nat) :
    decoded_msg (.txn ts ty nm ch st da dur) = .transaction (decoded_txn ts ty nm ch st da dur) := by
  simp [decoded_msg, decoded_txn]

theorem one_le_msg_count (m : WireMsg) : 1 ≤ msg_count m := by
  cases m <;> simp [msg_count]

/-- read_leaf_fields consumes one encoded field block. -/
theorem read_leaf_fields_enc (ts : Nat) (ty nm st da : String) (X : List Nat)
    (hts : ts < 2 ^ 64)
    (hty : ascii_ok ty = true) (hnm : ascii_ok nm = true)
    (hst : ascii_ok st = true) (hda : ascii_ok da = true) :
    read_leaf_fields
      (enc_varint ts ++ (enc_string ty ++ (enc_string nm ++ (enc_string st
        ++ (enc_string da ++ X)))))
      = .ok (⟨st, ty, nm, ts, da⟩, X) := by
  rw [read_leaf_fields, read_varint_enc ts hts _]
  dsimp only
  rw [read_string_enc ty hty _]
  dsimp only
  rw [read_string_enc nm hnm _]
  dsimp only
  rw [read_string_enc st hst _]
  dsimp only
  rw [read_string_enc da hda _]

/-- decode_event consumes one encoded leaf and performs the event pushes. -/
theorem decode_event_enc (tree : MessageTree) (par : Option Txn) (ts : Nat)
    (ty nm st da : String) (X : List Nat) (hts : ts < 2 ^ 64)
    (hty : ascii_ok ty = true) (hnm : ascii_ok nm = true)
    (hst : ascii_ok st = true) (hda : ascii_ok da = true) :
    decode_event tree par
      (enc_varint ts ++ (enc_string ty ++ (enc_string nm ++ (enc_string st
        ++ (enc_string da ++ X)))))
      = .ok ({ tree with events := tree.events ++ [⟨st, ty, nm, ts, da⟩] },
             parent_add par (.event ⟨st, ty, nm, ts, da⟩), X) := by
  rw [decode_event, read_leaf_fields_enc ts ty nm st da X hts hty hnm hst hda]

/-- decode_metric consumes one encoded leaf and performs the metric pushes. -/
theorem decode_metric_enc (tree : MessageTree) (par : Option Txn) (ts : Nat)
    (ty nm st da : String) (X : List Nat) (hts : ts < 2 ^ 64)
    (hty : ascii_ok ty = true) (hnm : ascii_ok nm = true)
    (hst : ascii_ok st = true) (hda : ascii_ok da = true) :
    decode_metric tree par
      (enc_varint ts ++ (enc_string ty ++ (enc_string nm ++ (enc_string st
        ++ (enc_string da ++ X)))))
      = .ok ({ tree with metrics := tree.metrics ++ [⟨st, ty, nm, ts, da⟩] },
             parent_add par (.metric ⟨st, ty, nm, ts, da⟩), X) := by
  rw [decode_metric, read_leaf_fields_enc ts ty nm st da X hts hty hnm hst hda]

/-- decode_heartbeat consumes one encoded leaf and performs the heartbeat pushes. -/
theorem decode_heartbeat_enc (tree : MessageTree) (par : Option Txn) (ts : Nat)
    (ty nm st da : String) (X : List Nat) (hts : ts < 2 ^ 64)
    (hty : ascii_ok ty = true) (hnm : ascii_ok nm = true)
    (hst : ascii_ok st = true) (hda : ascii_ok da = true) :
    decode_heartbeat tree par
      (enc_varint ts ++ (enc_string ty ++ (enc_string nm ++ (enc_string st
        ++ (enc_string da ++ X)))))
      = .ok ({ tree with heartbeats := tree.heartbeats ++ [⟨st, ty, nm, ts, da⟩] },
             parent_add par (.heartbeat ⟨st, ty, nm, ts, da⟩), X) := by
  rw [decode_heartbeat, read_leaf_fields_enc ts ty nm st da X hts hty hnm hst hda]

/-- decode_trace consumes one encoded leaf and performs the trace pushes. -/
theorem decode_trace_enc (tree : MessageTree) (par : Option Txn) (ts : Nat)
    (ty nm st da : String) (X : List Nat) (hts : ts < 2 ^ 64)
    (hty : ascii_ok ty = true) (hnm : ascii_ok nm = true)
    (hst : ascii_ok st = true) (hda : ascii_ok da = true) :
    decode_trace tree par
      (enc_varint ts ++ (enc_string ty ++ (enc_string nm ++ (enc_string st
        ++ (enc_string da ++ X)))))
      = .ok ({ tree with traces := tree.traces ++ [⟨st, ty, nm, ts, da⟩] },
             parent_add par (.trace ⟨st, ty, nm, ts, da⟩), X) := by
  rw [decode_trace, read_leaf_fields_enc ts ty nm st da X hts hty hnm hst hda]

/-- Decoding an encoded forest inside an enclosing transaction: the message
loop consumes the forest and stops at the closing tag, extending the tree's
catalogues and the active parent's children. -/
def decode_forest_append :
    ∀ (f : WireForest) (fuel : Nat) (tree : MessageTree) (par : Option Txn) (r : List Nat),
      forest_count f < fuel → wf_forest f = true →
      decode_message_fuel fuel tree par (encode_forest f ++ 84 :: r)
        = .ok (tree_extend tree f, parent_extend par f, r)
  | .nil, fuel, tree, par, r, hc, hw => by
    cases fuel with
    | zero => omega
    | succ fu =>
      rw [show encode_forest WireForest.nil ++ 84 :: r = 84 :: r by simp [encode_forest]]
      rw [decode_message_fuel]
      norm_num
      rw [tree_extend_nil, parent_extend_nil]
      exact ⟨rfl, rfl⟩
  | .cons (.leaf k ts ty nm st da) f, fuel, tree, par, r, hc, hw => by
    cases fuel with
    | zero => omega
    | succ fu =>
      simp only [forest_count, msg_count] at hc
      simp only [wf_forest, Bool.and_eq_true] at hw
      obtain ⟨hm, hwf⟩ := hw
      simp only [wf_msg, Bool.and_eq_true, decide_eq_true_eq] at hm
      obtain ⟨⟨⟨⟨hts, hty⟩, hnm⟩, hst⟩, hda⟩ := hm
      rw [tree_extend_cons_leaf, parent_extend_cons]
      cases k <;>
      · simp only [encode_forest, encode_msg, LeafKind.tag, List.append_assoc, List.cons_append]
        rw [decode_message_fuel]
        norm_num
        first
        | rw [decode_event_enc tree par ts ty nm st da _ hts hty hnm hst hda]
        | rw [decode_metric_enc tree par ts ty nm st da _ hts hty hnm hst hda]
        | rw [decode_heartbeat_enc tree par ts ty nm st da _ hts hty hnm hst hda]
        | rw [decode_trace_enc tree par ts ty nm st da _ hts hty hnm hst hda]
        dsimp only
        rw [decode_forest_append f fu _ _ r (by omega) hwf]
        simp [leaf_insert, decoded_msg]
  | .cons (.txn ts ty nm ch st da dur) f, fuel, tree, par, r, hc, hw => by
    cases fuel with
    | zero => omega
    | succ fu =>
      simp only [forest_count, msg_count] at hc
      simp only [wf_forest, Bool.and_eq_true] at hw
      obtain ⟨hm, hwf⟩ := hw
      simp only [wf_msg, Bool.and_eq_true, decide_eq_true_eq] at hm
      obtain ⟨⟨⟨⟨⟨⟨hts, hty⟩, hnm⟩, hch⟩, hst⟩, hlen⟩, hdur⟩ := hm
      rw [tree_extend_cons_txn, parent_extend_cons, decoded_msg_txn]
      simp only [encode_forest, encode_msg, List.append_assoc, List.cons_append]
      rw [decode_message_fuel]
      norm_num
      rw [decode_transaction, read_varint_enc ts hts _]
      dsimp only
      rw [read_string_enc ty hty _]
      dsimp only
      rw [read_string_enc nm hnm _]
      dsimp only
      rw [decode_forest_append ch fu tree (some (.mk "" ty (rewrite_name ty nm) ts "" 0 []))
        _ (by omega) hch]
      simp only [parent_extend, Txn.append_children, List.nil_append]
      rw [read_string_enc st hst _]
      dsimp only
      rw [read_bytes_enc da hlen _]
      dsimp only
      rw [read_varint_enc dur hdur _]
      dsimp only
      rw [decode_forest_append f fu _ _ r (by omega) hwf]
      simp only [Txn.set_final, decoded_txn]
      rfl
termination_by f _ _ _ _ _ _ => sizeOf f
decreasing_by all_goals simp_wf <;> omega

/-- Decoding an encoded forest at the top level: the message loop consumes
the forest and terminates cleanly at end of stream. -/
def decode_forest_eof :
    ∀ (f : WireForest) (fuel : Nat) (tree : MessageTree) (par : Option Txn),
      forest_count f < fuel → wf_forest f = true →
      decode_message_fuel fuel tree par (encode_forest f)
        = .ok (tree_extend tree f, parent_extend par f, [])
  | .nil, fuel, tree, par, hc, hw => by
    cases fuel with
    | zero => omega
    | succ fu =>
      rw [show encode_forest WireForest.nil = ([] : List Nat) by simp [encode_forest]]
      rw [decode_message_fuel]
      rw [tree_extend_nil, parent_extend_nil]
  | .cons (.leaf k ts ty nm st da) f, fuel, tree, par, hc, hw => by
    cases fuel with
    | zero => omega
    | succ fu =>
      simp only [forest_count, msg_count] at hc
      simp only [wf_forest, Bool.and_eq_true] at hw
      obtain ⟨hm, hwf⟩ := hw
      simp only [wf_msg, Bool.and_eq_true, decide_eq_true_eq] at hm
      obtain ⟨⟨⟨⟨hts, hty⟩, hnm⟩, hst⟩, hda⟩ := hm
      rw [tree_extend_cons_leaf, parent_extend_cons]
      cases k <;>
      · simp only [encode_forest, encode_msg, LeafKind.tag, List.append_assoc, List.cons_append]
        rw [decode_message_fuel]
        norm_num
        first
        | rw [decode_event_enc tree par ts ty nm st da _ hts hty hnm hst hda]
        | rw [decode_metric_enc tree par ts ty nm st da _ hts hty hnm hst hda]
        | rw [decode_heartbeat_enc tree par ts ty nm st da _ hts hty hnm hst hda]
        | rw [decode_trace_enc tree par ts ty nm st da _ hts hty hnm hst hda]
        dsimp only
        rw [decode_forest_eof f fu _ _ (by omega) hwf]
        simp [leaf_insert, decoded_msg]
  | .cons (.txn ts ty nm ch st da dur) f, fuel, tree, par, hc, hw => by
    cases fuel with
    | zero => omega
    | succ fu =>
      simp only [forest_count, msg_count] at hc
      simp only [wf_forest, Bool.and_eq_true] at hw
      obtain ⟨hm, hwf⟩ := hw
      simp only [wf_msg, Bool.and_eq_true, decide_eq_true_eq] at hm
      obtain ⟨⟨⟨⟨⟨⟨hts, hty⟩, hnm⟩, hch⟩, hst⟩, hlen⟩, hdur⟩ := hm
      rw [tree_extend_cons_txn, parent_extend_cons, decoded_msg_txn]
      simp only [encode_forest, encode_msg, List.append_assoc, List.cons_append]
      rw [decode_message_fuel]
      norm_num
      rw [decode_transaction, read_varint_enc ts hts _]
      dsimp only
      rw [read_string_enc ty hty _]
      dsimp only
      rw [read_string_enc nm hnm _]
      dsimp only
      rw [decode_forest_append ch fu tree (some (.mk "" ty (rewrite_name ty nm) ts "" 0 []))
        _ (by omega) hch]
      simp only [parent_extend, Txn.append_children, List.nil_append]
      rw [read_string_enc st hst _]
      dsimp only
      rw [read_bytes_enc da hlen _]
      dsimp only
      rw [read_varint_enc dur hdur _]
      dsimp only
      rw [decode_forest_eof f fu _ _ (by omega) hwf]
      simp only [Txn.set_final, decoded_txn]
      rfl
termination_by f _ _ _ _ _ => sizeOf f
decreasing_by all_goals simp_wf

/-- Every wire message takes at least one encoded byte, so the node count of
a forest is bounded by its encoded length. -/
def forest_count_le_length : ∀ f : WireForest, forest_count f ≤ (encode_forest f).length
  | .nil => by simp [forest_count, encode_forest]
  | .cons (.leaf k ts ty nm st da) f => by
    have hf := forest_count_le_length f
    simp only [forest_count, msg_count, encode_forest, encode_msg, List.length_append,
      List.length_cons]
    omega
  | .cons (.txn ts ty nm ch st da dur) f => by
    have hf := forest_count_le_length f
    have hch := forest_count_le_length ch
    simp only [forest_count, msg_count, encode_forest, encode_msg, List.length_append,
      List.length_cons]
    omega
termination_by f => sizeOf f
decreasing_by all_goals simp_wf <;> omega

/-- Decoding the encoding of a well-formed forest with the real wrapper:
the catalogues grow exactly by the forest's transactions in closing-tag
order and its leaves in emission order, and the parent's children grow by
the decoded messages. -/
theorem decode_message_encode_forest (f : WireForest) (tree : MessageTree)
    (par : Option Txn) (hw : wf_forest f = true) :
    decode_message tree par (encode_forest f)
      = .ok (tree_extend tree f, parent_extend par f, []) := by
  have hcount : forest_count f < (encode_forest f).length + 1 :=
    Nat.lt_succ_of_le (forest_count_le_length f)
  exact decode_forest_eof f ((encode_forest f).length + 1) tree par hcount hw

/-! Name-rewrite invariant machinery (for the claim about stored
transaction names). -/

mutual
/-- A transaction is well-named when its stored name is the rewrite of some
wire name for its stored type, and all transactions among its descendants
are as well. -/
def txn_wellnamed : Txn → Prop
  | .mk _ ty nm _ _ _ ch => (∃ nm₀, nm = rewrite_name ty nm₀) ∧ msgs_wellnamed ch

/-- A message is well-named when any transaction in it is. -/
def msg_wellnamed : Message → Prop
  | .transaction t => txn_wellnamed t
  | _ => True

/-- All messages of a list are well-named. -/
def msgs_wellnamed : List Message → Prop
  | [] => True
  | m :: ms => msg_wellnamed m ∧ msgs_wellnamed ms
end

/-- The active parent is well-named when its accumulated children are. -/
def par_wellnamed : Option Txn → Prop
  | none => True
  | some t => msgs_wellnamed t.children

/-- The decoders never change the identity (type and name) of the active
parent transaction, nor whether one is active. -/
def par_sig : Option Txn → Option Txn → Prop
  | none, none => True
  | some t, some t' => t'.ty = t.ty ∧ t'.name = t.name
  | _, _ => False

theorem msgs_wellnamed_append {xs ys : List Message} (hx : msgs_wellnamed xs)
    (hy : msgs_wellnamed ys) : msgs_wellnamed (xs ++ ys) := by
  induction xs with
  | nil => simpa using hy
  | cons m ms ih =>
    rw [msgs_wellnamed] at hx
    exact (by rw [List.cons_append, msgs_wellnamed]; exact ⟨hx.1, ih hx.2⟩)

theorem par_sig_refl (p : Option Txn) : par_sig p p := by
  cases p <;> simp [par_sig]

theorem par_sig_trans {a b c : Option Txn} (h1 : par_sig a b) (h2 : par_sig b c) :
    par_sig a c := by
  cases a <;> cases b <;> cases c <;> simp_all [par_sig]

theorem par_sig_add (p : Option Txn) (m : Message) : par_sig p (parent_add p m) := by
  cases p with
  | none => simp [parent_add, par_sig]
  | some t => cases t with
    | mk st ty nm ts da du ch => simp [parent_add, par_sig, Txn.add_child, Txn.ty, Txn.name]

theorem par_wellnamed_add {p : Option Txn} {m : Message} (hp : par_wellnamed p)
    (hm : msg_wellnamed m) : par_wellnamed (parent_add p m) := by
  cases p with
  | none => simp [parent_add, par_wellnamed]
  | some t =>
    cases t with
    | mk st ty nm ts da du ch =>
      rw [par_wellnamed] at hp
      rw [parent_add, par_wellnamed]
      exact msgs_wellnamed_append (by simpa [Txn.children] using hp)
        (by rw [msgs_wellnamed]; exact ⟨hm, trivial⟩)

/-- Leaf messages are vacuously well-named. -/
theorem msg_wellnamed_event (l : LeafMsg) : msg_wellnamed (.event l) := by
  rw [msg_wellnamed]
  · trivial
  · exact fun t h => Message.noConfusion h

/-- Leaf messages are vacuously well-named. -/
theorem msg_wellnamed_metric (l : LeafMsg) : msg_wellnamed (.metric l) := by
  rw [msg_wellnamed]
  · trivial
  · exact fun t h => Message.noConfusion h

/-- Leaf messages are vacuously well-named. -/
theorem msg_wellnamed_heartbeat (l : LeafMsg) : msg_wellnamed (.heartbeat l) := by
  rw [msg_wellnamed]
  · trivial
  · exact fun t h => Message.noConfusion h

/-- Leaf messages are vacuously well-named. -/
theorem msg_wellnamed_trace (l : LeafMsg) : msg_wellnamed (.trace l) := by
  rw [msg_wellnamed]
  · trivial
  · exact fun t h => Message.noConfusion h

/-- decode_event leaves the flat transactions catalogue unchanged and only
pushes a well-named message onto the active parent. -/
theorem decode_event_inv {tree : MessageTree} {par : Option Txn} {s : List Nat}
    {tree' : MessageTree} {par' : Option Txn} {r : List Nat}
    (h : decode_event tree par s = .ok (tree', par', r)) :
    tree'.transactions = tree.transactions
      ∧ ∃ m, par' = parent_add par m ∧ msg_wellnamed m := by
  rw [decode_event] at h
  rcases hf : read_leaf_fields s with e | ⟨l, s₁⟩ <;> rw [hf] at h <;> dsimp only at h
  · exact Except.noConfusion h
  · simp only [Except.ok.injEq, Prod.mk.injEq] at h
    obtain ⟨h1, h2, h3⟩ := h
    subst h1 h2
    exact ⟨rfl, ⟨_, rfl, msg_wellnamed_event l⟩⟩

/-- decode_metric: as decode_event. -/
theorem decode_metric_inv {tree : MessageTree} {par : Option Txn} {s : List Nat}
    {tree' : MessageTree} {par' : Option Txn} {r : List Nat}
    (h : decode_metric tree par s = .ok (tree', par', r)) :
    tree'.transactions = tree.transactions
      ∧ ∃ m, par' = parent_add par m ∧ msg_wellnamed m := by
  rw [decode_metric] at h
  rcases hf : read_leaf_fields s with e | ⟨l, s₁⟩ <;> rw [hf] at h <;> dsimp only at h
  · exact Except.noConfusion h
  · simp only [Except.ok.injEq, Prod.mk.injEq] at h
    obtain ⟨h1, h2, h3⟩ := h
    subst h1 h2
    exact ⟨rfl, ⟨_, rfl, msg_wellnamed_metric l⟩⟩

/-- decode_heartbeat: as decode_event. -/
theorem decode_heartbeat_inv {tree : MessageTree} {par : Option Txn} {s : List Nat}
    {tree' : MessageTree} {par' : Option Txn} {r : List Nat}
    (h : decode_heartbeat tree par s = .ok (tree', par', r)) :
    tree'.transactions = tree.transactions
      ∧ ∃ m, par' = parent_add par m ∧ msg_wellnamed m := by
  rw [decode_heartbeat] at h
  rcases hf : read_leaf_fields s with e | ⟨l, s₁⟩ <;> rw [hf] at h <;> dsimp only at h
  · exact Except.noConfusion h
  · simp only [Except.ok.injEq, Prod.mk.injEq] at h
    obtain ⟨h1, h2, h3⟩ := h
    subst h1 h2
    exact ⟨rfl, ⟨_, rfl, msg_wellnamed_heartbeat l⟩⟩

/-- decode_trace: as decode_event. -/
theorem decode_trace_inv {tree : MessageTree} {par : Option Txn} {s : List Nat}
    {tree' : MessageTree} {par' : Option Txn} {r : List Nat}
    (h : decode_trace tree par s = .ok (tree', par', r)) :
    tree'.transactions = tree.transactions
      ∧ ∃ m, par' = parent_add par m ∧ msg_wellnamed m := by
  rw [decode_trace] at h
  rcases hf : read_leaf_fields s with e | ⟨l, s₁⟩ <;> rw [hf] at h <;> dsimp only at h
  · exact Except.noConfusion h
  · simp only [Except.ok.injEq, Prod.mk.injEq] at h
    obtain ⟨h1, h2, h3⟩ := h
    subst h1 h2
    exact ⟨rfl, ⟨_, rfl, msg_wellnamed_trace l⟩⟩

/-- Transactions are well-named in a message. -/
theorem msg_wellnamed_transaction {t : Txn} (h : txn_wellnamed t) :
    msg_wellnamed (.transaction t) := by
  rw [msg_wellnamed]
  exact h

/-- decode_transaction preserves the name-rewrite invariant, assuming the
recursive message loop does: the finished transaction carries the rewritten
name and all stored transactions stay well-named. -/
theorem decode_transaction_preserves
    (recur : MessageTree → Option Txn → List Nat →
      Except DecodeError (MessageTree × Option Txn × List Nat))
    (hrec : ∀ tree par s tree' par' r, recur tree par s = .ok (tree', par', r) →
      (∀ t ∈ tree.transactions, txn_wellnamed t) → par_wellnamed par →
      (∀ t ∈ tree'.transactions, txn_wellnamed t) ∧ par_wellnamed par' ∧ par_sig par par')
    {tree : MessageTree} {par : Option Txn} {s : List Nat}
    {tree' : MessageTree} {par' : Option Txn} {r : List Nat}
    (h : decode_transaction recur tree par s = .ok (tree', par', r))
    (htree : ∀ t ∈ tree.transactions, txn_wellnamed t) (hpar : par_wellnamed par) :
    (∀ t ∈ tree'.transactions, txn_wellnamed t) ∧ par_wellnamed par' ∧ par_sig par par' := by
  rw [decode_transaction] at h
  rcases hv : read_varint s with e | ⟨ts, s₁⟩ <;> rw [hv] at h <;> dsimp only at h
  · exact Except.noConfusion h
  rcases h1 : read_string s₁ with e | ⟨ty, s₂⟩ <;> rw [h1] at h <;> dsimp only at h
  · exact Except.noConfusion h
  rcases h2 : read_string s₂ with e | ⟨nm, s₃⟩ <;> rw [h2] at h <;> dsimp only at h
  · exact Except.noConfusion h
  rcases h3 : recur tree (some (.mk "" ty (rewrite_name ty nm) ts "" 0 [])) s₃
    with e | ⟨tree₁, topt, s₄⟩ <;> rw [h3] at h <;> dsimp only at h
  · exact Except.noConfusion h
  rcases topt with _ | t₁ <;> dsimp only at h
  · exact Except.noConfusion h
  rcases h4 : read_string s₄ with e | ⟨st, s₅⟩ <;> rw [h4] at h <;> dsimp only at h
  · exact Except.noConfusion h
  rcases h5 : read_bytes s₅ with e | ⟨da, s₆⟩ <;> rw [h5] at h <;> dsimp only at h
  · exact Except.noConfusion h
  rcases h6 : read_varint s₆ with e | ⟨dur, s₇⟩ <;> rw [h6] at h <;> dsimp only at h
  · exact Except.noConfusion h
  have hstep := hrec _ _ _ _ _ _ h3 htree
    (by rw [par_wellnamed, Txn.children, msgs_wellnamed]; trivial)
  obtain ⟨htree₁, hpar₁, hsig₁⟩ := hstep
  cases t₁ with
  | mk st₁ ty₁ nm₁ ts₁ da₁ du₁ ch₁ =>
    rw [par_sig] at hsig₁
    simp only [Txn.ty, Txn.name] at hsig₁
    obtain ⟨hty₁, hnm₁⟩ := hsig₁
    rw [par_wellnamed, Txn.children] at hpar₁
    simp only [Txn.set_final] at h
    simp only [Except.ok.injEq, Prod.mk.injEq] at h
    obtain ⟨hA, hB, hC⟩ := h
    subst hA hB
    have ht₂ : txn_wellnamed (.mk st ty₁ nm₁ ts₁ (lossy_or_strict da) (dur / 1000) ch₁) := by
      rw [txn_wellnamed]
      exact ⟨⟨nm, by rw [hnm₁, hty₁]⟩, hpar₁⟩
    refine ⟨?_, par_wellnamed_add hpar (msg_wellnamed_transaction ht₂), par_sig_add par _⟩
    intro t ht
    simp only [List.mem_append, List.mem_singleton] at ht
    rcases ht with ht | ht
    · exact htree₁ t ht
    · rw [ht]
      exact ht₂

/-- The message loop preserves the name-rewrite invariant: every transaction
stored in the tree's flat catalogue stays well-named, the active parent's
children stay well-named, and the parent's identity is untouched. -/
theorem decode_message_fuel_preserves :
    ∀ (fuel : Nat) (tree : MessageTree) (par : Option Txn) (s : List Nat)
      (tree' : MessageTree) (par' : Option Txn) (r : List Nat),
      decode_message_fuel fuel tree par s = .ok (tree', par', r) →
      (∀ t ∈ tree.transactions, txn_wellnamed t) → par_wellnamed par →
      (∀ t ∈ tree'.transactions, txn_wellnamed t) ∧ par_wellnamed par' ∧ par_sig par par' := by
  intro fuel
  induction fuel with
  | zero =>
    intro tree par s tree' par' r h htree hpar
    rw [decode_message_fuel.eq_def] at h
    exact Except.noConfusion h
  | succ fu ih =>
    intro tree par s tree' par' r h htree hpar
    rcases s with _ | ⟨c, s⟩ <;> rw [decode_message_fuel] at h
    · simp only [Except.ok.injEq, Prod.mk.injEq] at h
      obtain ⟨hA, hB, hC⟩ := h
      subst hA hB
      exact ⟨htree, hpar, par_sig_refl par⟩
    · by_cases hc1 : c = 116
      · rw [if_pos hc1] at h
        rcases hd : decode_transaction (decode_message_fuel fu) tree par s
          with e | ⟨tree₁, par₁, s₁⟩ <;> rw [hd] at h <;> dsimp only at h
        · exact Except.noConfusion h
        obtain ⟨ht₁, hp₁, hs₁⟩ := decode_transaction_preserves _ ih hd htree hpar
        obtain ⟨ht₂, hp₂, hs₂⟩ := ih _ _ _ _ _ _ h ht₁ hp₁
        exact ⟨ht₂, hp₂, par_sig_trans hs₁ hs₂⟩
      rw [if_neg hc1] at h
      by_cases hc2 : c = 84
      · rw [if_pos hc2] at h
        simp only [Except.ok.injEq, Prod.mk.injEq] at h
        obtain ⟨hA, hB, hC⟩ := h
        subst hA hB
        exact ⟨htree, hpar, par_sig_refl par⟩
      rw [if_neg hc2] at h
      by_cases hc3 : c = 69
      · rw [if_pos hc3] at h
        rcases hd : decode_event tree par s
          with e | ⟨tree₁, par₁, s₁⟩ <;> rw [hd] at h <;> dsimp only at h
        · exact Except.noConfusion h
        obtain ⟨heq, m, hpm, hm⟩ := decode_event_inv hd
        obtain ⟨ht₂, hp₂, hs₂⟩ := ih _ _ _ _ _ _ h
          (by rw [heq]; exact htree) (by rw [hpm]; exact par_wellnamed_add hpar hm)
        refine ⟨ht₂, hp₂, par_sig_trans ?_ hs₂⟩
        rw [hpm]
        exact par_sig_add par m
      rw [if_neg hc3] at h
      by_cases hc4 : c = 77
      · rw [if_pos hc4] at h
        rcases hd : decode_metric tree par s
          with e | ⟨tree₁, par₁, s₁⟩ <;> rw [hd] at h <;> dsimp only at h
        · exact Except.noConfusion h
        obtain ⟨heq, m, hpm, hm⟩ := decode_metric_inv hd
        obtain ⟨ht₂, hp₂, hs₂⟩ := ih _ _ _ _ _ _ h
          (by rw [heq]; exact htree) (by rw [hpm]; exact par_wellnamed_add hpar hm)
        refine ⟨ht₂, hp₂, par_sig_trans ?_ hs₂⟩
        rw [hpm]
        exact par_sig_add par m
      rw [if_neg hc4] at h
      by_cases hc5 : c = 72
      · rw [if_pos hc5] at h
        rcases hd : decode_heartbeat tree par s
          with e | ⟨tree₁, par₁, s₁⟩ <;> rw [hd] at h <;> dsimp only at h
        · exact Except.noConfusion h
        obtain ⟨heq, m, hpm, hm⟩ := decode_heartbeat_inv hd
        obtain ⟨ht₂, hp₂, hs₂⟩ := ih _ _ _ _ _ _ h
          (by rw [heq]; exact htree) (by rw [hpm]; exact par_wellnamed_add hpar hm)
        refine ⟨ht₂, hp₂, par_sig_trans ?_ hs₂⟩
        rw [hpm]
        exact par_sig_add par m
      rw [if_neg hc5] at h
      by_cases hc6 : c = 76
      · rw [if_pos hc6] at h
        rcases hd : decode_trace tree par s
          with e | ⟨tree₁, par₁, s₁⟩ <;> rw [hd] at h <;> dsimp only at h
        · exact Except.noConfusion h
        obtain ⟨heq, m, hpm, hm⟩ := decode_trace_inv hd
        obtain ⟨ht₂, hp₂, hs₂⟩ := ih _ _ _ _ _ _ h
          (by rw [heq]; exact htree) (by rw [hpm]; exact par_wellnamed_add hpar hm)
        refine ⟨ht₂, hp₂, par_sig_trans ?_ hs₂⟩
        rw [hpm]
        exact par_sig_add par m
      rw [if_neg hc6] at h
      exact Except.noConfusion h

/-- decode_transaction never changes the identity of the enclosing parent:
it only appends one child to it. -/
theorem decode_transaction_sig
    (recur : MessageTree → Option Txn → List Nat →
      Except DecodeError (MessageTree × Option Txn × List Nat))
    {tree : MessageTree} {par : Option Txn} {s : List Nat}
    {tree' : MessageTree} {par' : Option Txn} {r : List Nat}
    (h : decode_transaction recur tree par s = .ok (tree', par', r)) :
    par_sig par par' := by
  rw [decode_transaction] at h
  rcases hv : read_varint s with e | ⟨ts, s₁⟩ <;> rw [hv] at h <;> dsimp only at h
  · exact Except.noConfusion h
  rcases h1 : read_string s₁ with e | ⟨ty, s₂⟩ <;> rw [h1] at h <;> dsimp only at h
  · exact Except.noConfusion h
  rcases h2 : read_string s₂ with e | ⟨nm, s₃⟩ <;> rw [h2] at h <;> dsimp only at h
  · exact Except.noConfusion h
  rcases h3 : recur tree (some (.mk "" ty (rewrite_name ty nm) ts "" 0 [])) s₃
    with e | ⟨tree₁, topt, s₄⟩ <;> rw [h3] at h <;> dsimp only at h
  · exact Except.noConfusion h
  rcases topt with _ | t₁ <;> dsimp only at h
  · exact Except.noConfusion h
  rcases h4 : read_string s₄ with e | ⟨st, s₅⟩ <;> rw [h4] at h <;> dsimp only at h
  · exact Except.noConfusion h
  rcases h5 : read_bytes s₅ with e | ⟨da, s₆⟩ <;> rw [h5] at h <;> dsimp only at h
  · exact Except.noConfusion h
  rcases h6 : read_varint s₆ with e | ⟨dur, s₇⟩ <;> rw [h6] at h <;> dsimp only at h
  · exact Except.noConfusion h
  simp only [Except.ok.injEq, Prod.mk.injEq] at h
  obtain ⟨hA, hB, hC⟩ := h
  rw [← hB]
  exact par_sig_add par _

/-- The message loop never changes the identity of the active parent
transaction (type, name, and whether one is active). -/
theorem decode_message_fuel_sig :
    ∀ (fuel : Nat) (tree : MessageTree) (par : Option Txn) (s : List Nat)
      (tree' : MessageTree) (par' : Option Txn) (r : List Nat),
      decode_message_fuel fuel tree par s = .ok (tree', par', r) → par_sig par par' := by
  intro fuel
  induction fuel with
  | zero =>
    intro tree par s tree' par' r h
    rw [decode_message_fuel.eq_def] at h
    exact Except.noConfusion h
  | succ fu ih =>
    intro tree par s tree' par' r h
    rcases s with _ | ⟨c, s⟩ <;> rw [decode_message_fuel] at h
    · simp only [Except.ok.injEq, Prod.mk.injEq] at h
      obtain ⟨hA, hB, hC⟩ := h
      subst hB
      exact par_sig_refl par
    · by_cases hc1 : c = 116
      · rw [if_pos hc1] at h
        rcases hd : decode_transaction (decode_message_fuel fu) tree par s
          with e | ⟨tree₁, par₁, s₁⟩ <;> rw [hd] at h <;> dsimp only at h
        · exact Except.noConfusion h
        exact par_sig_trans (decode_transaction_sig _ hd) (ih _ _ _ _ _ _ h)
      rw [if_neg hc1] at h
      by_cases hc2 : c = 84
      · rw [if_pos hc2] at h
        simp only [Except.ok.injEq, Prod.mk.injEq] at h
        obtain ⟨hA, hB, hC⟩ := h
        subst hB
        exact par_sig_refl par
      rw [if_neg hc2] at h
      by_cases hc3 : c = 69
      · rw [if_pos hc3] at h
        rcases hd : decode_event tree par s
          with e | ⟨tree₁, par₁, s₁⟩ <;> rw [hd] at h <;> dsimp only at h
        · exact Except.noConfusion h
        obtain ⟨heq, m, hpm, hm⟩ := decode_event_inv hd
        refine par_sig_trans ?_ (ih _ _ _ _ _ _ h)
        rw [hpm]
        exact par_sig_add par m
      rw [if_neg hc3] at h
      by_cases hc4 : c = 77
      · rw [if_pos hc4] at h
        rcases hd : decode_metric tree par s
          with e | ⟨tree₁, par₁, s₁⟩ <;> rw [hd] at h <;> dsimp only at h
        · exact Except.noConfusion h
        obtain ⟨heq, m, hpm, hm⟩ := decode_metric_inv hd
        refine par_sig_trans ?_ (ih _ _ _ _ _ _ h)
        rw [hpm]
        exact par_sig_add par m
      rw [if_neg hc4] at h
      by_cases hc5 : c = 72
      · rw [if_pos hc5] at h
        rcases hd : decode_heartbeat tree par s
          with e | ⟨tree₁, par₁, s₁⟩ <;> rw [hd] at h <;> dsimp only at h
        · exact Except.noConfusion h
        obtain ⟨heq, m, hpm, hm⟩ := decode_heartbeat_inv hd
        refine par_sig_trans ?_ (ih _ _ _ _ _ _ h)
        rw [hpm]
        exact par_sig_add par m
      rw [if_neg hc5] at h
      by_cases hc6 : c = 76
      · rw [if_pos hc6] at h
        rcases hd : decode_trace tree par s
          with e | ⟨tree₁, par₁, s₁⟩ <;> rw [hd] at h <;> dsimp only at h
        · exact Except.noConfusion h
        obtain ⟨heq, m, hpm, hm⟩ := decode_trace_inv hd
        refine par_sig_trans ?_ (ih _ _ _ _ _ _ h)
        rw [hpm]
        exact par_sig_add par m
      rw [if_neg hc6] at h
      exact Except.noConfusion h

/-- The transaction that decode_transaction appends last to the flat
catalogue carries the wire type and the rewritten wire name. -/
theorem decode_transaction_name (fuel : Nat)
    {tree : MessageTree} {par : Option Txn} {s : List Nat}
    {tree' : MessageTree} {par' : Option Txn} {r : List Nat}
    {ts : Nat} {s₁ : List Nat} {ty : String} {s₂ : List Nat} {nm : String} {s₃ : List Nat}
    (hv : read_varint s = .ok (ts, s₁)) (h1 : read_string s₁ = .ok (ty, s₂))
    (h2 : read_string s₂ = .ok (nm, s₃))
    (h : decode_transaction (decode_message_fuel fuel) tree par s = .ok (tree', par', r)) :
    ∃ t₂, tree'.transactions.getLast? = some t₂
      ∧ t₂.ty = ty ∧ t₂.name = rewrite_name ty nm := by
  rw [decode_transaction, hv] at h
  dsimp only at h
  rw [h1] at h
  dsimp only at h
  rw [h2] at h
  dsimp only at h
  rcases h3 : decode_message_fuel fuel tree (some (.mk "" ty (rewrite_name ty nm) ts "" 0 [])) s₃
    with e | ⟨tree₁, topt, s₄⟩ <;> rw [h3] at h <;> dsimp only at h
  · exact Except.noConfusion h
  rcases topt with _ | t₁ <;> dsimp only at h
  · exact Except.noConfusion h
  rcases h4 : read_string s₄ with e | ⟨st, s₅⟩ <;> rw [h4] at h <;> dsimp only at h
  · exact Except.noConfusion h
  rcases h5 : read_bytes s₅ with e | ⟨da, s₆⟩ <;> rw [h5] at h <;> dsimp only at h
  · exact Except.noConfusion h
  rcases h6 : read_varint s₆ with e | ⟨dur, s₇⟩ <;> rw [h6] at h <;> dsimp only at h
  · exact Except.noConfusion h
  have hsig := decode_message_fuel_sig fuel _ _ _ _ _ _ h3
  cases t₁ with
  | mk st₁ ty₁ nm₁ ts₁ da₁ du₁ ch₁ =>
    rw [par_sig] at hsig
    simp only [Txn.ty, Txn.name] at hsig
    obtain ⟨hty₁, hnm₁⟩ := hsig
    simp only [Txn.set_final] at h
    simp only [Except.ok.injEq, Prod.mk.injEq] at h
    obtain ⟨hA, hB, hC⟩ := h
    subst hA
    refine ⟨.mk st ty₁ nm₁ ts₁ (lossy_or_strict da) (dur / 1000) ch₁, ?_, ?_, ?_⟩
    · simp only [List.getLast?_concat]
    · simpa [Txn.ty] using hty₁
    · simpa [Txn.name] using hnm₁

/-- read_string fails with the UTF-8 error on any length-prefixed invalid
byte sequence. -/
theorem read_string_invalid (bs rest : List Nat)
    (hlen : bs.length < 2 ^ 64) (hbad : utf8Decode bs = none) :
    read_string (enc_varint bs.length ++ (bs ++ rest)) = .error .invalidUtf8 := by
  have h0 : bs.length ≠ 0 := by
    intro h
    rw [List.length_eq_zero.mp h] at hbad
    rw [show utf8Decode [] = some [] from rfl] at hbad
    exact Option.noConfusion hbad
  rw [read_string, read_varint_enc _ hlen _]
  dsimp only
  rw [if_neg h0, if_neg (by simp only [List.length_append]; omega), List.take_left, hbad]

/-- When the children loop of a transaction consumes the whole remaining
stream (end of stream reached before the closing tag), decode_transaction
fails with the end-of-stream error from the status read that follows. -/
theorem decode_transaction_eof_after_children (fuel : Nat)
    {tree tree₂ : MessageTree} {par : Option Txn} {s : List Nat}
    {ts : Nat} {s₁ : List Nat} {ty : String} {s₂ : List Nat} {nm : String} {s₃ : List Nat}
    {topt : Option Txn}
    (hv : read_varint s = .ok (ts, s₁)) (h1 : read_string s₁ = .ok (ty, s₂))
    (h2 : read_string s₂ = .ok (nm, s₃))
    (h3 : decode_message_fuel fuel tree (some (.mk "" ty (rewrite_name ty nm) ts "" 0 [])) s₃
      = .ok (tree₂, topt, [])) :
    decode_transaction (decode_message_fuel fuel) tree par s = .error .eof := by
  rw [decode_transaction, hv]
  dsimp only
  rw [h1]
  dsimp only
  rw [h2]
  dsimp only
  rw [h3]
  dsimp only
  have hsig := decode_message_fuel_sig fuel _ _ _ _ _ _ h3
  rcases topt with _ | t₁
  · rw [par_sig] at hsig
    · exact hsig.elim
    · exact fun h _ => Option.noConfusion h
    · exact fun t t' _ h => Option.noConfusion h
  · dsimp only
    rw [show read_string [] = .error .eof from rfl]

/-! The claims. -/

/-- C6: read_varint decodes unsigned LEB128 (low 7 bits per byte, MSB set
means continue); whenever the accumulated shift amount exceeds 63 bits the
result saturates to 0 and decoding terminates without a panic or error; in
particular 10 continuation bytes followed by a terminating byte yield 0. -/
theorem C6_read_varint :
    (∀ (n : Nat) (rest : List Nat), n < 2 ^ 64 →
      read_varint (enc_varint n ++ rest) = .ok (n, rest))
  ∧ (∀ (acc shift b : Nat) (rest : List Nat), 64 ≤ shift →
      read_varint_loop acc shift (b :: rest) = .ok (0, rest))
  ∧ read_varint [255, 255, 255, 255, 255, 255, 255, 255, 255, 255, 1] = .ok (0, []) := by
  refine ⟨fun n rest h => read_varint_enc n h rest, fun acc shift b rest h => ?_, by rfl⟩
  rw [read_varint_loop]
  by_cases hb : b < 128
  · rw [if_pos hb, if_pos h]
  · rw [if_neg hb, if_pos h]

/-- Witness for C6 at concrete inputs: the two-byte encoding of 300 decodes
to 300, and a loop state whose shift has passed 63 returns 0. -/
theorem C6_read_varint_witness :
    read_varint (enc_varint 300 ++ [7]) = .ok (300, [7])
  ∧ read_varint_loop 3 70 [5, 9] = .ok (0, [9]) :=
  ⟨C6_read_varint.1 300 [7] (by norm_num), C6_read_varint.2.1 3 70 5 [9] (by norm_num)⟩

/-- Big-endian 4-byte rendering of a length below 2 ^ 32. -/
def be32 (L : Nat) : List Nat :=
  [L / 2 ^ 24 % 256, L / 2 ^ 16 % 256, L / 2 ^ 8 % 256, L % 256]

/-- C8: try_read_data returns None on clean EOF before any length byte;
returns the L-byte body when a full 4-byte big-endian length L and L body
bytes are available; and is fatal (an error, not success) on a short read in
the middle of the length (the "read length error" panic) or of the body
(the UnexpectedEof error of read_exact).  The short-body case is stated for
sizes below 2 ^ 63, the regime in which the `vec![0; size]` allocation
succeeds so that read_exact is reached - every nonnegative declared i32
length is in this regime; for larger sizes (negative prefixes) the call is
fatal too, but through the earlier capacity-overflow panic. -/
theorem C8_try_read_data :
    try_read_data [] = .ok (none, [])
  ∧ (∀ (L : Nat) (body rest : List Nat), L < 2 ^ 31 → body.length = L →
      try_read_data (be32 L ++ (body ++ rest)) = .ok (some body, rest))
  ∧ (∀ s : List Nat, s ≠ [] → s.length < 4 → try_read_data s = .error .lengthPanic)
  ∧ (∀ (b0 b1 b2 b3 : Nat) (rest : List Nat),
      read_i32_be_as_usize b0 b1 b2 b3 < 2 ^ 63 →
      rest.length < read_i32_be_as_usize b0 b1 b2 b3 →
      try_read_data (b0 :: b1 :: b2 :: b3 :: rest) = .error .eof) := by
  refine ⟨by rfl, fun L body rest hL hlen => ?_, fun s hne hlt => ?_,
    fun b0 b1 b2 b3 rest halloc h => ?_⟩
  · have hsize : read_i32_be_as_usize (L / 2 ^ 24 % 256) (L / 2 ^ 16 % 256)
        (L / 2 ^ 8 % 256) (L % 256) = L := by
      rw [read_i32_be_as_usize]
      have hv : ((L / 2 ^ 24 % 256 * 256 + L / 2 ^ 16 % 256) * 256 + L / 2 ^ 8 % 256) * 256
          + L % 256 = L := by omega
      rw [hv]
      rw [if_pos (by omega)]
      rw [Int.emod_eq_of_lt (by omega) (by omega)]
      omega
    show try_read_data (L / 2 ^ 24 % 256 :: L / 2 ^ 16 % 256 :: L / 2 ^ 8 % 256 :: L % 256
      :: (body ++ rest)) = .ok (some body, rest)
    rw [try_read_data, hsize]
    rw [if_neg (by omega : ¬ 2 ^ 63 ≤ L)]
    rw [if_neg (by rw [List.length_append]; omega)]
    rw [List.take_left' hlen, List.drop_left' hlen]
  · rcases s with _ | ⟨a, _ | ⟨b, _ | ⟨c, _ | ⟨d, t⟩⟩⟩⟩
    · exact absurd rfl hne
    · rfl
    · rfl
    · rfl
    · simp at hlt
      omega
  · rw [try_read_data, if_neg (by omega), if_pos h]

/-- Witness for C8 at concrete inputs: an exact two-byte body, a two-byte
stream that panics, and a declared length bigger than the remaining bytes. -/
theorem C8_try_read_data_witness :
    try_read_data (be32 2 ++ ([9, 8] ++ [5])) = .ok (some [9, 8], [5])
  ∧ try_read_data [1, 2] = .error .lengthPanic
  ∧ try_read_data [0, 0, 0, 5, 1] = .error .eof :=
  ⟨C8_try_read_data.2.1 2 [9, 8] [5] (by norm_num) (by rfl),
   C8_try_read_data.2.2.1 [1, 2] (by simp) (by simp),
   C8_try_read_data.2.2.2 0 0 0 5 [1] (by norm_num [read_i32_be_as_usize])
     (by norm_num [read_i32_be_as_usize])⟩

/-- C10 counterexample: on the negative prefix FF FF FF FF (length -1) the
call is the capacity-overflow panic of `vec![0; size]`, not the short-read
UnexpectedEof of read_exact the claim describes - the exact read is never
reached. -/
theorem C10_negative_length_counterexample :
    try_read_data [255, 255, 255, 255, 7] = .error .capacityOverflow
  ∧ try_read_data [255, 255, 255, 255, 7] ≠ .error .eof := by
  refine ⟨rfl, fun h => ?_⟩
  rw [show try_read_data [255, 255, 255, 255, 7] =
    Except.error DecodeError.capacityOverflow from rfl] at h
  exact Except.noConfusion h fun he => DecodeError.noConfusion he

/-- C10 (amended): try_read_data converts the signed 32-bit length to an
unsigned 64-bit size with no negativity check: a negative prefix L yields
the sign extension L mod 2 ^ 64, at least 2 ^ 64 - 2 ^ 31; but because that
size exceeds isize::MAX, the buffer allocation `vec![0; size]` panics with
capacity overflow before any body byte is read - the call is fatal on every
negative prefix through the allocation panic, not a short exact read. -/
theorem C10_negative_length_amended :
    ∀ (b0 b1 b2 b3 : Nat) (rest : List Nat) (v : Nat),
      b0 < 256 → b1 < 256 → b2 < 256 → b3 < 256 →
      v = ((b0 * 256 + b1) * 256 + b2) * 256 + b3 → 2 ^ 31 ≤ v →
      (read_i32_be_as_usize b0 b1 b2 b3 = v + (2 ^ 64 - 2 ^ 32)
        ∧ 2 ^ 64 - 2 ^ 31 ≤ read_i32_be_as_usize b0 b1 b2 b3)
      ∧ try_read_data (b0 :: b1 :: b2 :: b3 :: rest) = .error .capacityOverflow := by
  intro b0 b1 b2 b3 rest v h0 h1 h2 h3 hv hneg
  have hv32 : v < 2 ^ 32 := by omega
  have hsize : read_i32_be_as_usize b0 b1 b2 b3 = v + (2 ^ 64 - 2 ^ 32) := by
    rw [read_i32_be_as_usize, ← hv, if_neg (by omega)]
    have he : ((v : Int) - 2 ^ 32) % 2 ^ 64 = (v : Int) - 2 ^ 32 + 2 ^ 64 := by
      omega
    rw [he]
    omega
  refine ⟨⟨hsize, by omega⟩, ?_⟩
  rw [try_read_data, if_pos (by omega)]

/-- Witness for the amended C10 at the concrete prefix FF FF FF FF (the
length -1): the computed size is 2 ^ 64 - 1 and the call is the capacity
overflow panic. -/
theorem C10_negative_length_amended_witness :
    (read_i32_be_as_usize 255 255 255 255 = 4294967295 + (2 ^ 64 - 2 ^ 32)
      ∧ 2 ^ 64 - 2 ^ 31 ≤ read_i32_be_as_usize 255 255 255 255)
  ∧ try_read_data [255, 255, 255, 255, 7] = .error .capacityOverflow :=
  C10_negative_length_amended 255 255 255 255 [7] 4294967295
    (by norm_num) (by norm_num) (by norm_num) (by norm_num) (by norm_num) (by norm_num)

/-- C1 counterexample: with the cursor exhausted and a nonzero staging
residue of 3 bytes smaller than the requested 5, the read does not return 0
as claimed: the Rust loop never terminates (modelled as `diverge`). -/
theorem C1_snappy_read_counterexample :
    snappy_read (fun b => .ok b) 5 ⟨[], [1, 2, 3]⟩ = .diverge
  ∧ snappy_read (fun b => .ok b) 5 ⟨[], [1, 2, 3]⟩ ≠ .ok 0 [] ⟨[], [1, 2, 3]⟩ :=
  ⟨by rfl, by decide⟩

/-- C1 (amended): for a request of n > 0 bytes, a staging buffer holding at
least n bytes returns exactly the n front bytes; an exhausted cursor with an
empty buffer returns 0 (EOF); but an exhausted cursor with a nonzero residue
smaller than n makes the read loop spin forever on an unchanged state
instead of returning 0. -/
theorem C1_snappy_read_amended :
    (∀ (decomp : List Nat → Except DecodeError (List Nat)) (st : SnappyState) (n : Nat),
      0 < n → n ≤ st.buf.length →
      snappy_read decomp n st = .ok n (st.buf.take n) ⟨st.reader, st.buf.drop n⟩)
  ∧ (∀ (decomp : List Nat → Except DecodeError (List Nat)) (st : SnappyState) (n : Nat),
      0 < n → st.reader = [] → st.buf = [] →
      snappy_read decomp n st = .ok 0 [] st)
  ∧ (∀ (decomp : List Nat → Except DecodeError (List Nat)) (st : SnappyState) (n : Nat),
      st.reader = [] → st.buf ≠ [] → st.buf.length < n →
      snappy_read decomp n st = .diverge) := by
  refine ⟨fun decomp st n hn hle => ?_, fun decomp st n hn hr hb => ?_,
    fun decomp st n hr hb hlt => ?_⟩
  · obtain ⟨rd, bf⟩ := st
    rw [snappy_read, snappy_read_fuel]
    simp only at hle ⊢
    rw [if_neg (by omega)]
  · obtain ⟨rd, bf⟩ := st
    simp only at hr hb
    subst hr hb
    rw [snappy_read, snappy_read_fuel]
    rw [if_pos (by simpa using hn)]
    rfl
  · obtain ⟨rd, bf⟩ := st
    simp only at hr hb hlt
    subst hr
    rw [snappy_read, snappy_read_fuel]
    rw [if_pos (by simpa using hlt)]
    rw [if_pos (by simp), if_neg (by simpa using hb)]

/-- Witness for C1 (amended) at concrete states: a buffered read of 2 from
a 3-byte buffer, EOF on empty state, and the diverging residue state. -/
theorem C1_snappy_read_amended_witness :
    snappy_read (fun b => .ok b) 2 ⟨[7], [1, 2, 3]⟩ = .ok 2 [1, 2] ⟨[7], [3]⟩
  ∧ snappy_read (fun b => .ok b) 3 ⟨[], []⟩ = .ok 0 [] ⟨[], []⟩
  ∧ snappy_read (fun b => .ok b) 7 ⟨[], [9]⟩ = .diverge :=
  ⟨C1_snappy_read_amended.1 (fun b => .ok b) ⟨[7], [1, 2, 3]⟩ 2 (by norm_num) (by norm_num),
   C1_snappy_read_amended.2.1 (fun b => .ok b) ⟨[], []⟩ 3 (by norm_num) rfl rfl,
   C1_snappy_read_amended.2.2 (fun b => .ok b) ⟨[], [9]⟩ 7 rfl (by simp) (by norm_num)⟩

/-- The message loop returns success immediately on a close tag. -/
theorem decode_message_fuel_close (fuel : Nat) (tree : MessageTree) (par : Option Txn)
    (s : List Nat) : decode_message_fuel (fuel + 1) tree par (84 :: s) = .ok (tree, par, s) := by
  rw [decode_message_fuel]
  norm_num

/-- C5: in the tree decoder's message loop, end-of-stream at the top level
(no transaction open) terminates the loop cleanly with success; end-of-stream
inside an open transaction (the children loop consumes the whole stream
without seeing the matching close tag) makes the decode of that transaction
fail with the end-of-stream error raised by the status read that follows the
loop (the failure mode the specification labels UnterminatedTransaction);
and any tag byte other than 't', 'T', 'E', 'M', 'H', 'L' is the fatal
unknown-message-kind failure. -/
theorem C5_eof_and_unknown_tag :
    (∀ tree : MessageTree, decode_message tree none [] = .ok (tree, none, []))
  ∧ (∀ (fuel : Nat) (tree tree₂ : MessageTree) (par : Option Txn) (s : List Nat)
      (ts : Nat) (s₁ : List Nat) (ty : String) (s₂ : List Nat) (nm : String) (s₃ : List Nat)
      (topt : Option Txn),
      read_varint s = .ok (ts, s₁) → read_string s₁ = .ok (ty, s₂) →
      read_string s₂ = .ok (nm, s₃) →
      decode_message_fuel fuel tree (some (.mk "" ty (rewrite_name ty nm) ts "" 0 [])) s₃
        = .ok (tree₂, topt, []) →
      decode_transaction (decode_message_fuel fuel) tree par s = .error .eof)
  ∧ (∀ (fuel : Nat) (tree : MessageTree) (par : Option Txn) (c : Nat) (s : List Nat),
      c ≠ 116 → c ≠ 84 → c ≠ 69 → c ≠ 77 → c ≠ 72 → c ≠ 76 →
      decode_message_fuel (fuel + 1) tree par (c :: s) = .error .unknownMessageKind) := by
  refine ⟨fun tree => by rfl,
    fun fuel tree tree₂ par s ts s₁ ty s₂ nm s₃ topt hv h1 h2 h3 =>
      decode_transaction_eof_after_children fuel hv h1 h2 h3,
    fun fuel tree par c s hc1 hc2 hc3 hc4 hc5 hc6 => ?_⟩
  rw [decode_message_fuel]
  rw [if_neg hc1, if_neg hc2, if_neg hc3, if_neg hc4, if_neg hc5, if_neg hc6]

/-- Witness for C5 at concrete inputs: the empty record terminates the loop,
a transaction whose stream ends right after its name fails with the
end-of-stream error, and the tag byte 'X' is the unknown-kind failure. -/
theorem C5_eof_and_unknown_tag_witness :
    decode_message {} none [] = .ok ({}, none, [])
  ∧ decode_transaction (decode_message_fuel 1) {} none [0, 0, 0] = .error .eof
  ∧ decode_message_fuel 1 {} none [88] = .error .unknownMessageKind :=
  ⟨C5_eof_and_unknown_tag.1 {},
   C5_eof_and_unknown_tag.2.1 1 {} {} none [0, 0, 0] 0 [0, 0] "" [0] "" [] (some (.mk "" "" "" 0 "" 0 []))
     (by rfl) (by rfl) (by rfl) (by rfl),
   C5_eof_and_unknown_tag.2.2 0 {} none 88 [] (by norm_num) (by norm_num) (by norm_num)
     (by norm_num) (by norm_num) (by norm_num)⟩

/-- read_version accepts the NT1 magic and passes the rest through. -/
theorem read_version_nt1 (X : List Nat) :
    read_version (78 :: 84 :: 49 :: X) = .ok ("NT1", X) := by
  rw [read_version]
  rw [if_neg (by simp)]
  simp only [List.take_succ_cons, List.take_zero, List.drop_succ_cons, List.drop_zero]
  rfl

/-- C7: a transaction's data field with invalid UTF-8 bytes is stored as the
lossy replacement of those bytes and the decode succeeds; any other string
field (read through read_string, both in the header and in messages) fails
hard with the invalid-UTF-8 error. -/
theorem C7_utf8_handling :
    (∀ bs rest : List Nat, bs.length < 2 ^ 64 → utf8Decode bs = none →
      read_string (enc_varint bs.length ++ (bs ++ rest)) = .error .invalidUtf8)
  ∧ (∀ (fuel : Nat) (tree : MessageTree) (par : Option Txn) (ts : Nat) (ty nm st : String)
      (da : List Nat) (dur : Nat) (X : List Nat),
      ts < 2 ^ 64 → ascii_ok ty = true → ascii_ok nm = true → ascii_ok st = true →
      da.length < 2 ^ 64 → dur < 2 ^ 64 → utf8Decode da = none →
      decode_transaction (decode_message_fuel (fuel + 1)) tree par
        (enc_varint ts ++ (enc_string ty ++ (enc_string nm ++ (84 :: (enc_string st
          ++ (enc_varint da.length ++ (da ++ (enc_varint dur ++ X))))))))
        = .ok ({ tree with transactions := tree.transactions
              ++ [.mk st ty (rewrite_name ty nm) ts (String.mk (utf8Lossy da)) (dur / 1000) []] },
            parent_add par (.transaction
              (.mk st ty (rewrite_name ty nm) ts (String.mk (utf8Lossy da)) (dur / 1000) [])),
            X))
  ∧ (∀ (tree : MessageTree) (bs rest : List Nat), bs.length < 2 ^ 64 → utf8Decode bs = none →
      decode_header tree (78 :: 84 :: 49 :: (enc_varint bs.length ++ (bs ++ rest)))
        = .error .invalidUtf8)
  ∧ (∀ (tree : MessageTree) (par : Option Txn) (ts : Nat) (ty : String) (bs rest : List Nat),
      ts < 2 ^ 64 → ascii_ok ty = true → bs.length < 2 ^ 64 → utf8Decode bs = none →
      decode_event tree par
        (enc_varint ts ++ (enc_string ty ++ (enc_varint bs.length ++ (bs ++ rest))))
        = .error .invalidUtf8) := by
  refine ⟨read_string_invalid,
    fun fuel tree par ts ty nm st da dur X hts hty hnm hst hlen hdur hbad => ?_,
    fun tree bs rest hlen hbad => ?_,
    fun tree par ts ty bs rest hts hty hlen hbad => ?_⟩
  · rw [decode_transaction, read_varint_enc ts hts _]
    dsimp only
    rw [read_string_enc ty hty _]
    dsimp only
    rw [read_string_enc nm hnm _]
    dsimp only
    rw [decode_message_fuel_close]
    dsimp only
    rw [read_string_enc st hst _]
    dsimp only
    rw [read_bytes_enc da hlen _]
    dsimp only
    rw [read_varint_enc dur hdur _]
    dsimp only
    simp only [Txn.set_final, lossy_or_strict, hbad]
  · rw [decode_header, read_version_nt1]
    dsimp only
    rw [if_neg (by simp)]
    rw [read_string_invalid bs rest hlen hbad]
  · rw [decode_event, read_leaf_fields, read_varint_enc ts hts _]
    dsimp only
    rw [read_string_enc ty hty _]
    dsimp only
    rw [read_string_invalid bs rest hlen hbad]

/-- Witness for C7 at concrete inputs built around the invalid byte 0xFF. -/
theorem C7_utf8_handling_witness :
    read_string (enc_varint 1 ++ ([255] ++ [])) = .error .invalidUtf8
  ∧ decode_transaction (decode_message_fuel 1) {} none
      (enc_varint 0 ++ (enc_string "" ++ (enc_string "" ++ (84 :: (enc_string ""
        ++ (enc_varint 1 ++ ([255] ++ (enc_varint 0 ++ []))))))))
      = .ok ({ transactions := [.mk "" "" (rewrite_name "" "") 0
            (String.mk (utf8Lossy [255])) 0 []] },
          parent_add none (.transaction
            (.mk "" "" (rewrite_name "" "") 0 (String.mk (utf8Lossy [255])) 0 [])),
          [])
  ∧ decode_header {} (78 :: 84 :: 49 :: (enc_varint 1 ++ ([255] ++ []))) = .error .invalidUtf8
  ∧ decode_event {} none (enc_varint 0 ++ (enc_string "" ++ (enc_varint 1 ++ ([255] ++ []))))
      = .error .invalidUtf8 := by
  have hbad : utf8Decode [255] = none := by rfl
  refine ⟨?_, ?_, ?_, ?_⟩
  · have h := C7_utf8_handling.1 [255] [] (by norm_num) hbad
    simpa using h
  · have h := C7_utf8_handling.2.1 0 {} none 0 "" "" "" [255] 0 []
      (by norm_num) (by rfl) (by rfl) (by rfl) (by norm_num) (by norm_num) hbad
    simpa using h
  · have h := C7_utf8_handling.2.2.1 {} [255] [] (by norm_num) hbad
    simpa using h
  · have h := C7_utf8_handling.2.2.2 {} none 0 "" [255] [] (by norm_num) (by rfl)
      (by norm_num) hbad
    simpa using h

/-- C3: the transaction that decode_transaction stores carries the
wire-decoded type unchanged, and its stored name is "UploadMetric" when the
wire type is "System" or the wire name starts with "UploadMetric", and the
wire name unchanged otherwise; moreover the message loop keeps every
transaction in the flat catalogue (children included, recursively)
well-named, i.e. its name is the rewrite of some wire name for its type. -/
theorem C3_name_rewrite :
    (∀ (fuel : Nat) (tree : MessageTree) (par : Option Txn) (s : List Nat)
       (tree' : MessageTree) (par' : Option Txn) (r : List Nat)
       (ts : Nat) (s₁ : List Nat) (ty : String) (s₂ : List Nat) (nm : String) (s₃ : List Nat),
       read_varint s = .ok (ts, s₁) → read_string s₁ = .ok (ty, s₂) →
       read_string s₂ = .ok (nm, s₃) →
       decode_transaction (decode_message_fuel fuel) tree par s = .ok (tree', par', r) →
       ∃ t, tree'.transactions.getLast? = some t ∧ t.ty = ty
         ∧ t.name = (if ty == "System" || strStartsWith nm "UploadMetric"
             then "UploadMetric" else nm))
  ∧ (∀ (fuel : Nat) (tree : MessageTree) (par : Option Txn) (s : List Nat)
       (tree' : MessageTree) (par' : Option Txn) (r : List Nat),
       decode_message_fuel fuel tree par s = .ok (tree', par', r) →
       (∀ t ∈ tree.transactions, txn_wellnamed t) → par_wellnamed par →
       ∀ t ∈ tree'.transactions, txn_wellnamed t) :=
  ⟨fun fuel _tree _par _s _tree' _par' _r _ts _s₁ _ty _s₂ _nm _s₃ hv h1 h2 h =>
    decode_transaction_name fuel hv h1 h2 h,
   fun fuel tree par s tree' par' r h htree hpar =>
    (decode_message_fuel_preserves fuel tree par s tree' par' r h htree hpar).1⟩

/-- Witness for C3: decoding a transaction of type "System" and wire name
"x" stores the name "UploadMetric", and the invariant applied to the empty
loop run. -/
theorem C3_name_rewrite_witness :
    (∃ t, ({ transactions :=
        [Txn.mk "" "System" "UploadMetric" 1 "" 0 []] } : MessageTree).transactions.getLast?
        = some t ∧ t.ty = "System"
      ∧ t.name = (if "System" == "System" || strStartsWith "x" "UploadMetric"
          then "UploadMetric" else "x"))
  ∧ (∀ t ∈ ({} : MessageTree).transactions, txn_wellnamed t) := by
  constructor
  · exact C3_name_rewrite.1 1 {} none
      [1, 6, 83, 121, 115, 116, 101, 109, 1, 120, 84, 0, 0, 0]
      { transactions := [Txn.mk "" "System" "UploadMetric" 1 "" 0 []] } none []
      1 [6, 83, 121, 115, 116, 101, 109, 1, 120, 84, 0, 0, 0]
      "System" [1, 120, 84, 0, 0, 0] "x" [84, 0, 0, 0]
      (by rfl) (by rfl) (by rfl) (by rfl)
  · exact C3_name_rewrite.2 1 {} none [] {} none [] (by rfl) (by simp)
      (by rw [par_wellnamed]; trivial)

/-- C2: every successfully decoded tree has its representative message set
to the last element of the first non-empty catalogue in the order
transactions, events, metrics, heartbeats, traces; and a record whose
message loop leaves all five catalogues empty makes the decode fail with
the empty-tree failure (the unreachable! panic site). -/
theorem C2_representative :
    (∀ (s : List Nat) (tree : MessageTree), MessageTree.decode s = .ok tree →
       (tree.transactions ≠ [] →
         ∃ t, tree.transactions.getLast? = some t ∧ tree.message = .transaction t)
     ∧ (tree.transactions = [] → tree.events ≠ [] →
         ∃ l, tree.events.getLast? = some l ∧ tree.message = .event l)
     ∧ (tree.transactions = [] → tree.events = [] → tree.metrics ≠ [] →
         ∃ l, tree.metrics.getLast? = some l ∧ tree.message = .metric l)
     ∧ (tree.transactions = [] → tree.events = [] → tree.metrics = [] →
         tree.heartbeats ≠ [] →
         ∃ l, tree.heartbeats.getLast? = some l ∧ tree.message = .heartbeat l)
     ∧ (tree.transactions = [] → tree.events = [] → tree.metrics = [] →
         tree.heartbeats = [] → tree.traces ≠ [] →
         ∃ l, tree.traces.getLast? = some l ∧ tree.message = .trace l))
  ∧ (∀ (s : List Nat) (tree₀ : MessageTree) (s₁ : List Nat) (tree₁ : MessageTree)
       (p : Option Txn) (r : List Nat),
       decode_header {} s = .ok (tree₀, s₁) →
       decode_message tree₀ none s₁ = .ok (tree₁, p, r) →
       tree₁.transactions = [] → tree₁.events = [] → tree₁.metrics = [] →
       tree₁.heartbeats = [] → tree₁.traces = [] →
       MessageTree.decode s = .error .emptyTree) := by
  constructor
  · intro s tree h
    rw [MessageTree.decode] at h
    rcases hh : decode_header {} s with e | ⟨tree₀, s₁⟩ <;> rw [hh] at h <;> dsimp only at h
    · exact Except.noConfusion h
    rcases hm : decode_message tree₀ none s₁ with e | ⟨tree₁, p, r⟩ <;>
      rw [hm] at h <;> dsimp only at h
    · exact Except.noConfusion h
    rcases hT : tree₁.transactions.getLast? with _ | t <;> rw [hT] at h <;> dsimp only at h
    case _ =>
      rcases hE : tree₁.events.getLast? with _ | l <;> rw [hE] at h <;> dsimp only at h
      case _ =>
        rcases hM : tree₁.metrics.getLast? with _ | l <;> rw [hM] at h <;> dsimp only at h
        case _ =>
          rcases hH : tree₁.heartbeats.getLast? with _ | l <;> rw [hH] at h <;> dsimp only at h
          case _ =>
            rcases hL : tree₁.traces.getLast? with _ | l <;> rw [hL] at h <;> dsimp only at h
            case _ => exact Except.noConfusion h
            case _ =>
              simp only [Except.ok.injEq] at h
              subst h
              refine ⟨fun hx => absurd ?_ hx, fun _ hx => absurd ?_ hx, fun _ _ hx => absurd ?_ hx,
                fun _ _ _ hx => absurd ?_ hx, fun _ _ _ _ _ => ⟨l, hL, rfl⟩⟩
              · exact List.getLast?_eq_none_iff.mp hT
              · exact List.getLast?_eq_none_iff.mp hE
              · exact List.getLast?_eq_none_iff.mp hM
              · exact List.getLast?_eq_none_iff.mp hH
          case _ =>
            simp only [Except.ok.injEq] at h
            subst h
            refine ⟨fun hx => absurd ?_ hx, fun _ hx => absurd ?_ hx, fun _ _ hx => absurd ?_ hx,
              fun _ _ _ _ => ⟨l, hH, rfl⟩, fun _ _ _ hemp _ => ?_⟩
            · exact List.getLast?_eq_none_iff.mp hT
            · exact List.getLast?_eq_none_iff.mp hE
            · exact List.getLast?_eq_none_iff.mp hM
            · rw [hemp] at hH
              simp at hH
        case _ =>
          simp only [Except.ok.injEq] at h
          subst h
          refine ⟨fun hx => absurd ?_ hx, fun _ hx => absurd ?_ hx,
            fun _ _ _ => ⟨l, hM, rfl⟩, fun _ _ hemp _ => ?_, fun _ _ hemp _ _ => ?_⟩
          · exact List.getLast?_eq_none_iff.mp hT
          · exact List.getLast?_eq_none_iff.mp hE
          · rw [hemp] at hM
            simp at hM
          · rw [hemp] at hM
            simp at hM
      case _ =>
        simp only [Except.ok.injEq] at h
        subst h
        refine ⟨fun hx => absurd ?_ hx, fun _ _ => ⟨l, hE, rfl⟩, fun _ hemp _ => ?_,
          fun _ hemp _ _ => ?_, fun _ hemp _ _ _ => ?_⟩
        · exact List.getLast?_eq_none_iff.mp hT
        · rw [hemp] at hE
          simp at hE
        · rw [hemp] at hE
          simp at hE
        · rw [hemp] at hE
          simp at hE
    case _ =>
      simp only [Except.ok.injEq] at h
      subst h
      refine ⟨fun _ => ⟨t, hT, rfl⟩, fun hemp _ => ?_, fun hemp _ _ => ?_,
        fun hemp _ _ _ => ?_, fun hemp _ _ _ _ => ?_⟩
      all_goals rw [hemp] at hT
      all_goals simp at hT
  · intro s tree₀ s₁ tree₁ p r hh hm hT hE hM hH hL
    rw [MessageTree.decode, hh]
    dsimp only
    rw [hm]
    dsimp only
    rw [hT, hE, hM, hH, hL]
    rfl

/-- Witness for C2 at concrete records: a single-event record selects that
event as representative, and a header-only record is the empty-tree
failure. -/
theorem C2_representative_witness :
    (∃ l, ({ events := [⟨"s", "t", "n", 0, "d"⟩], message := .event ⟨"s", "t", "n", 0, "d"⟩ } : MessageTree).events.getLast? = some l
      ∧ ({ events := [⟨"s", "t", "n", 0, "d"⟩], message := .event ⟨"s", "t", "n", 0, "d"⟩ } : MessageTree).message = .event l)
  ∧ MessageTree.decode [78, 84, 49, 0, 0, 0, 0, 0, 0, 0, 0, 0, 0] = .error .emptyTree := by
  constructor
  · exact (C2_representative.1
      ([78, 84, 49] ++ [0, 0, 0, 0, 0, 0, 0, 0, 0, 0] ++ [69, 0, 1, 116, 1, 110, 1, 115, 1, 100])
      { events := [⟨"s", "t", "n", 0, "d"⟩], message := .event ⟨"s", "t", "n", 0, "d"⟩ }
      (by rfl)).2.1 (by rfl) (by simp)
  · exact C2_representative.2 [78, 84, 49, 0, 0, 0, 0, 0, 0, 0, 0, 0, 0] {} [] {} none []
      (by rfl) (by rfl) rfl rfl rfl rfl rfl

/-- decode_header on the NT1 magic followed by ten empty header strings. -/
theorem decode_header_empty (X : List Nat) :
    decode_header {} (78 :: 84 :: 49 :: 0 :: 0 :: 0 :: 0 :: 0 :: 0 :: 0 :: 0 :: 0 :: 0 :: X)
      = .ok ({}, X) := by
  rw [decode_header, read_version_nt1]
  rfl

/-- C9 counterexample: a record with a valid header and a top-level 'T'
close tag but no messages does not "return success": the decode fails with
the empty-tree panic, so the claim's universal success statement is false. -/
theorem C9_stray_close_counterexample :
    MessageTree.decode [78, 84, 49, 0, 0, 0, 0, 0, 0, 0, 0, 0, 0, 84, 1, 2, 3]
      = .error .emptyTree := by rfl

/-- C9 (amended): a close tag 'T' at the top level of the message loop makes
the loop return success immediately, with the bytes after the tag left
unread and no error reported for the unmatched tag; the overall tree decode
then succeeds, ignoring any remaining bytes, provided at least one message
was decoded before the stray tag (otherwise it is the empty-tree failure of
the counterexample). -/
theorem C9_stray_close_amended :
    (∀ (tree : MessageTree) (s : List Nat),
      decode_message tree none (84 :: s) = .ok (tree, none, s))
  ∧ (∀ junk : List Nat,
      MessageTree.decode (78 :: 84 :: 49 :: 0 :: 0 :: 0 :: 0 :: 0 :: 0 :: 0 :: 0 :: 0 :: 0 ::
        (encode_forest (.cons (.leaf .event 0 "t" "n" "s" "d") .nil) ++ 84 :: junk))
        = .ok { events := [⟨"s", "t", "n", 0, "d"⟩],
                message := .event ⟨"s", "t", "n", 0, "d"⟩ }) := by
  constructor
  · intro tree s
    rw [decode_message]
    simp only [List.length_cons]
    exact decode_message_fuel_close s.length tree none s
  · intro junk
    rw [MessageTree.decode, decode_header_empty]
    dsimp only
    rw [decode_message]
    rw [decode_forest_append (.cons (.leaf .event 0 "t" "n" "s" "d") .nil) _ {} none junk
      (by
        rw [show forest_count (.cons (.leaf .event 0 "t" "n" "s" "d") .nil) = 1 from rfl]
        simp [List.length_append]) (by rfl)]
    dsimp only
    rw [show tree_extend {} (.cons (.leaf .event 0 "t" "n" "s" "d") .nil)
        = ({ events := [⟨"s", "t", "n", 0, "d"⟩] } : MessageTree) from by
      simp [tree_extend, post_txns, post_txns_msg, emit_leaves, emit_leaves_msg]]
    rfl

/-- Witness for C9 (amended) at concrete inputs. -/
theorem C9_stray_close_amended_witness :
    decode_message {} none [84, 9, 9] = .ok ({}, none, [9, 9])
  ∧ MessageTree.decode (78 :: 84 :: 49 :: 0 :: 0 :: 0 :: 0 :: 0 :: 0 :: 0 :: 0 :: 0 :: 0 ::
      (encode_forest (.cons (.leaf .event 0 "t" "n" "s" "d") .nil) ++ 84 :: [1, 2, 3]))
      = .ok { events := [⟨"s", "t", "n", 0, "d"⟩], message := .event ⟨"s", "t", "n", 0, "d"⟩ } :=
  ⟨C9_stray_close_amended.1 {} [9, 9], C9_stray_close_amended.2 [1, 2, 3]⟩

/-- C4: decoding any well-formed encoded record extends the flat
transactions catalogue in closing-tag (post-)order and the per-kind leaf
catalogues in emission order, and extends the active parent's children with
the decoded messages; in particular, for an outer transaction enclosing an
inner one, the catalogue order is [inner, outer] and the inner decoded
transaction is the very value stored in the outer's children list. -/
theorem C4_catalogue_order :
    (∀ (f : WireForest) (tree : MessageTree) (par : Option Txn), wf_forest f = true →
      decode_message tree par (encode_forest f)
        = .ok (tree_extend tree f, parent_extend par f, []))
  ∧ (∀ (tso tsi duro duri : Nat) (tyo nmo sto tyi nmi sti : String) (dao dai : List Nat),
      post_txns (.cons (.txn tso tyo nmo
          (.cons (.txn tsi tyi nmi .nil sti dai duri) .nil) sto dao duro) .nil)
        = [decoded_txn tsi tyi nmi .nil sti dai duri,
           decoded_txn tso tyo nmo (.cons (.txn tsi tyi nmi .nil sti dai duri) .nil) sto dao duro])
  ∧ (∀ (tso tsi duro duri : Nat) (tyo nmo sto tyi nmi sti : String) (dao dai : List Nat),
      Message.transaction (decoded_txn tsi tyi nmi .nil sti dai duri)
        ∈ (decoded_txn tso tyo nmo (.cons (.txn tsi tyi nmi .nil sti dai duri) .nil)
            sto dao duro).children) := by
  refine ⟨fun f tree par hw => decode_message_encode_forest f tree par hw,
    fun tso tsi duro duri tyo nmo sto tyi nmi sti dao dai => ?_,
    fun tso tsi duro duri tyo nmo sto tyi nmi sti dao dai => ?_⟩
  · simp [post_txns, post_txns_msg, decoded_txn]
  · simp [decoded_txn, Txn.children, decoded_children, decoded_msg]

/-- Witness for C4: the two-transaction record (outer enclosing inner)
decodes with the catalogue ordered [inner, outer]. -/
theorem C4_catalogue_order_witness :
    decode_message {} none (encode_forest (.cons (.txn 2 "o" "m"
        (.cons (.txn 1 "i" "n" .nil "ok" [] 1500) .nil) "ok" [] 2000) .nil))
      = .ok (tree_extend {} (.cons (.txn 2 "o" "m"
          (.cons (.txn 1 "i" "n" .nil "ok" [] 1500) .nil) "ok" [] 2000) .nil),
        parent_extend none (.cons (.txn 2 "o" "m"
          (.cons (.txn 1 "i" "n" .nil "ok" [] 1500) .nil) "ok" [] 2000) .nil), []) :=
  C4_catalogue_order.1 (.cons (.txn 2 "o" "m"
    (.cons (.txn 1 "i" "n" .nil "ok" [] 1500) .nil) "ok" [] 2000) .nil) {} none (by rfl)
